import Mathlib

/-!
Verification development for the RAPTOR asset-management service
(`asset_management/client.py`, `database.py`, `object_store.py`,
`vector_store.py`, `endpoints.py`).

The Python code is shallowly embedded as executable Lean definitions:

* timestamps are abstract `Nat` day counts;
* object-store commit identifiers (`version_id`) are `Nat`, handed out from a
  monotone counter, matching lakeFS commit ids being fresh per commit;
* the object store's content checksum is modelled as the content string
  itself (a stand-in for a collision-free hash);
* the MySQL tables `commit_history` and `audit_log` are lists of records;
  SQL `UPDATE`/`DELETE`/`SELECT` statements become list traversals that keep
  the source's `WHERE` clauses verbatim;
* Python exceptions are the inductive `PyExn`; `HTTPException(status, detail)`
  maps to `PyExn.httpExc`, and the `AttributeError` raised by touching
  `.status_code` / `.version_id` on an object lacking the attribute maps to
  `PyExn.attributeError`;
* `asyncio.gather` over the associated-file tasks is run left-to-right,
  threading the object-store state (the event loop interleaves the tasks, but
  each task touches a distinct key, so the sequential order is faithful).

`detect_file_type` (`utils.py`) is not part of the sources; its `base_path`
output is therefore passed to the upload pipeline as an explicit argument and
the pipeline is embedded from the point where `client.py` consumes that value.
-/

namespace Raptor

/-- Python exceptions as they appear in `client.py` / `object_store.py`:
`httpExc` is FastAPI's `HTTPException(status_code, detail)`;
`attributeError` is the `AttributeError` raised when an attribute such as
`.status_code` or `.version_id` is read from an object that lacks it;
`validationError` is pydantic's `ValidationError`; `typeError` is Python's
`TypeError` (for example `dict(...)` applied to a non-pair element). -/
inductive PyExn where
  | httpExc (status : Nat) (detail : String)
  | attributeError
  | validationError
  | typeError
deriving Repr, DecidableEq

/-- The `e.status_code` attribute access in the source's `except` blocks:
only `HTTPException` carries one; on the others the access itself raises. -/
def statusCodeOf : PyExn → Option Nat
  | .httpExc s _ => some s
  | _ => none

/-- `ChangeStatus` pydantic model (`models.py`). -/
structure ChangeStatus where
  changed : Bool := false
  message : String := ""
deriving Repr, DecidableEq

/-- `AssetMetadata` pydantic model (`models.py`).  `associated_filenames` is a
list of `(filename, version_id)` pairs; the version component is `Option Nat`
because `_upload_assoc_task` can produce `(filename, None)` via
`associated_filenames.get(filename)` on a missing key. -/
structure AssetMetadata where
  asset_path : String
  version_id : Nat
  primary_filename : String
  associated_filenames : List (String × Option Nat)
  upload_date : Nat
  archive_date : Nat
  destroy_date : Nat
  branch : String
  status : String
  checksum : String
  change_status : ChangeStatus := {}
deriving Repr, DecidableEq

/-- One row of the `audit_log` table (`database.py`). -/
structure AuditRow where
  username : String
  asset_path : String
  version_id : Option Nat
  branch : String
  operation : String
  timestamp : Nat
  success : Bool
  details : String
deriving Repr, DecidableEq

/-- The relational state managed by `Database` (`database.py`): the
`commit_history` and `audit_log` tables.  The `users` table only feeds the
permission check, which is upstream of everything the claims discuss. -/
structure DBState where
  commit_history : List AssetMetadata
  audit_log : List AuditRow
deriving Repr, DecidableEq

/-- The lakeFS-backed object store (`object_store.py`): branch-scoped HEAD
contents as `(branch, key, content)` triples plus the commit counter that
hands out fresh commit ids. -/
structure ObjStore where
  heads : List (String × String × String)
  nextCommit : Nat
deriving Repr, DecidableEq

/-- One point of the qdrant vector mirror (`vector_store.py`): surrogate id
plus the payload fields the filters and updates touch. -/
structure Point where
  pid : Nat
  asset_path : String
  version_id : Nat
  branch : String
  status : String
deriving Repr, DecidableEq

/-! ## String helpers: `urllib.parse.unquote`, `re.sub`, `str.split`,
`os.path.splitext` -/

/-- Numeric value of a hexadecimal digit, as accepted by percent escapes. -/
def hexDigitVal (c : Char) : Option Nat :=
  if '0' ≤ c ∧ c ≤ '9' then some (c.toNat - '0'.toNat)
  else if 'a' ≤ c ∧ c ≤ 'f' then some (c.toNat - 'a'.toNat + 10)
  else if 'A' ≤ c ∧ c ≤ 'F' then some (c.toNat - 'A'.toNat + 10)
  else none

/-- Core of `urllib.parse.unquote`: a `%` followed by two hex digits decodes
to the byte's code point; any other `%` stays literal.  (Python additionally
UTF-8-decodes runs of bytes ≥ 0x80; the embedding maps each such byte to its
Latin-1 code point instead.  No theorem below depends on a multi-byte
escape.) -/
def pyUnquoteAux : List Char → List Char
  | [] => []
  | '%' :: a :: b :: rest2 =>
    match hexDigitVal a, hexDigitVal b with
    | some ha, some hb => Char.ofNat (16 * ha + hb) :: pyUnquoteAux rest2
    | _, _ => '%' :: pyUnquoteAux (a :: b :: rest2)
  | c :: rest => c :: pyUnquoteAux rest

/-- `urllib.parse.unquote` on strings. -/
def pyUnquote (s : String) : String :=
  String.mk (pyUnquoteAux s.data)

/-- Python's single-character `str.split(ch)` on character lists (kept
structural so the kernel can evaluate it; `String.splitOn` is well-founded
recursive and does not reduce). -/
def splitChar (ch : Char) : List Char → List (List Char)
  | [] => [[]]
  | c :: rest =>
    let r := splitChar ch rest
    if c = ch then [] :: r
    else
      match r with
      | [] => [[c]]
      | h :: t => (c :: h) :: t

/-- Python's `ch.join(parts)` on character lists. -/
def joinChar (ch : Char) : List (List Char) → List Char
  | [] => []
  | [l] => l
  | l :: rest => l ++ ch :: joinChar ch rest

/-- Python's regex class `\w` on a `str` pattern: Unicode word characters,
i.e. alphanumerics (per `str.isalnum`) and the underscore.  The embedding
covers code points below U+0100 exactly (ASCII alphanumerics, `_`, and the
Latin-1 letters U+00AA, U+00B5, U+00BA, U+00C0–U+00FF minus the two
operators U+00D7 and U+00F7); no theorem below evaluates it elsewhere. -/
def pyIsWordChar (c : Char) : Bool :=
  (('a' ≤ c && c ≤ 'z') || ('A' ≤ c && c ≤ 'Z') || ('0' ≤ c && c ≤ '9') || c = '_')
    || (c.toNat = 0xAA || c.toNat = 0xB5 || c.toNat = 0xBA
        || (0xC0 ≤ c.toNat && c.toNat ≤ 0xFF && c.toNat ≠ 0xD7 && c.toNat ≠ 0xF7))

/-- Character class kept by `re.sub(r'[^\w\.\-]', '_', filename)`. -/
def pyAllowedChar (c : Char) : Bool :=
  pyIsWordChar c || c = '.' || c = '-'

/-- One character of `re.sub(r'[^\w\.\-]', '_', filename)`. -/
def sanitizeChar (c : Char) : Char :=
  if pyAllowedChar c then c else '_'

/-- `AssetManager._sanitize_filename` (`client.py` 45-62): reject the empty
string, percent-decode, keep the part after the last `/`, replace every
character outside `\w`, `.`, `-` by `_`, and reject `""`, `"."`, `".."`. -/
def sanitizeFilename (filename : String) : Except PyExn String :=
  if filename = "" then .error (.httpExc 400 ("Filename is required"))
  else
    let leaf := (splitChar '/' (pyUnquote filename).data).getLastD []
    let cleaned := leaf.map sanitizeChar
    if cleaned = [] ∨ cleaned = ['.'] ∨ cleaned = ['.', '.'] then
      .error (.httpExc 400 ("Invalid filename"))
    else .ok (String.mk cleaned)

/-- Separator test for `re.sub(r'[\\/]+', '/', ...)`. -/
def isSep (c : Char) : Bool := c = '/' || c = '\\'

/-- Collapse every run of `/` and `\` separators into a single `/`
(the `re.sub(r'[\\/]+', '/', path)` step of `_sanitize_path`). -/
def collapseSeps : List Char → List Char
  | [] => []
  | [c] => if isSep c then ['/'] else [c]
  | a :: b :: rest =>
    if isSep a then
      if isSep b then collapseSeps (b :: rest)
      else '/' :: collapseSeps (b :: rest)
    else a :: collapseSeps (b :: rest)

/-- Python's `str.strip(ch)`: drop the character from both ends. -/
def stripChar (ch : Char) (l : List Char) : List Char :=
  ((l.dropWhile (· = ch)).reverse.dropWhile (· = ch)).reverse

/-- `AssetManager._sanitize_path` (`client.py` 27-43): reject the empty
string, strip outer `/`, collapse separator runs, and reject any `..`
segment as path traversal. -/
def sanitizePath (path : String) : Except PyExn String :=
  if path = "" then .error (.httpExc 400 ("Invalid empty path"))
  else
    let collapsed := collapseSeps (stripChar '/' path.data)
    if (splitChar '/' collapsed).contains ['.', '.'] then
      .error (.httpExc 400 ("Path traversal detected"))
    else .ok (String.mk collapsed)

/-- Stem part of `os.path.splitext(name)`: split at the last dot unless every
character before that dot is itself a dot (so `.bashrc` keeps its name). -/
def splitextStem (name : String) : String :=
  let parts := splitChar '.' name.data
  match parts.reverse with
  | [] => name
  | [_] => name
  | _ :: revInit =>
    let pre := joinChar '.' revInit.reverse
    if pre.all (fun c => c = '.') then name else String.mk pre

/-- Lines 145-148 of `upload_files`: sanitize the primary filename, sanitize
the `base_path` reported by `detect_file_type`, and derive the asset path
`base_path/stem(primary_filename)`.  Returns `(asset_path, primary_filename)`. -/
def computePrimaryNames (basePathRaw filenameRaw : String) :
    Except PyExn (String × String) := do
  let pfn ← sanitizeFilename filenameRaw
  let base ← sanitizePath basePathRaw
  let ap ← sanitizePath (base ++ "/" ++ splitextStem pfn)
  pure (ap, pfn)

/-! ## `Database` operations (`database.py`) -/

/-- The `commit_history` primary key `(asset_path, version_id, branch)`. -/
def samePK (a b : AssetMetadata) : Bool :=
  decide (a.asset_path = b.asset_path ∧ a.version_id = b.version_id ∧ a.branch = b.branch)

/-- `Database.save_metadata` (108-144): `INSERT ... ON DUPLICATE KEY UPDATE`,
an upsert on `(asset_path, version_id, branch)`.  `change_status` is not a
column of `commit_history`, so it is reset on the stored row (reads return
the pydantic default). -/
def saveMetadata (ch : List AssetMetadata) (m : AssetMetadata) : List AssetMetadata :=
  let m' := { m with change_status := {} }
  if ch.any (fun r => samePK r m') then
    ch.map (fun r => if samePK r m' then m' else r)
  else ch ++ [m']

/-- `ORDER BY upload_date DESC LIMIT 1`: the row with the greatest
`upload_date` (first listed row wins a tie, the SQL order being unspecified
there). -/
def pickLatest (l : List AssetMetadata) : Option AssetMetadata :=
  l.foldl
    (fun acc r =>
      match acc with
      | none => some r
      | some b => if b.upload_date < r.upload_date then some r else acc)
    none

/-- `Database.get_latest_active_asset` (146-182):
`WHERE asset_path = %s AND status = 'active' AND branch = %s`. -/
def getLatestActiveAsset (ch : List AssetMetadata) (ap br : String) :
    Option AssetMetadata :=
  pickLatest (ch.filter fun r =>
    decide (r.asset_path = ap ∧ r.status = "active" ∧ r.branch = br))

/-- `Database.get_asset_by_path_and_version` (184-218):
`WHERE asset_path = %s AND version_id = %s AND branch = %s`. -/
def getAssetByPathAndVersion (ch : List AssetMetadata) (ap : String) (vid : Nat)
    (br : String) : Option AssetMetadata :=
  ch.find? fun r => decide (r.asset_path = ap ∧ r.version_id = vid ∧ r.branch = br)

/-- `Database.update_status` (251-276): with a non-empty `branch` the
`UPDATE` is keyed on `(asset_path, version_id, branch)`; with a falsy
`branch` the second SQL branch drops the branch condition and updates every
row matching `(asset_path, version_id)`. -/
def updateStatusDb (ch : List AssetMetadata) (ap : String) (vid : Nat)
    (st br : String) : List AssetMetadata :=
  if br ≠ "" then
    ch.map fun r =>
      if decide (r.asset_path = ap ∧ r.version_id = vid ∧ r.branch = br) then
        { r with status := st }
      else r
  else
    ch.map fun r =>
      if decide (r.asset_path = ap ∧ r.version_id = vid) then
        { r with status := st }
      else r

/-- `Database.delete_metadata` (278-310), `commit_history` part: same
branch-key rule as `update_status`. -/
def deleteMetadataRows (ch : List AssetMetadata) (ap : String) (vid : Nat)
    (br : String) : List AssetMetadata :=
  if br ≠ "" then
    ch.filter fun r =>
      ! decide (r.asset_path = ap ∧ r.version_id = vid ∧ r.branch = br)
  else
    ch.filter fun r => ! decide (r.asset_path = ap ∧ r.version_id = vid)

/-- `Database.delete_metadata` (278-310), `audit_log` part. -/
def deleteAuditRows (log : List AuditRow) (ap : String) (vid : Nat)
    (br : String) : List AuditRow :=
  if br ≠ "" then
    log.filter fun r =>
      ! decide (r.asset_path = ap ∧ r.version_id = some vid ∧ r.branch = br)
  else
    log.filter fun r => ! decide (r.asset_path = ap ∧ r.version_id = some vid)

/-- `Database.delete_metadata`, both tables in one transaction. -/
def deleteMetadataDb (db : DBState) (ap : String) (vid : Nat) (br : String) :
    DBState :=
  { commit_history := deleteMetadataRows db.commit_history ap vid br,
    audit_log := deleteAuditRows db.audit_log ap vid br }

/-- `Database.log_access` (441-462): append one audit row. -/
def logAccess (log : List AuditRow) (username ap : String) (vid : Option Nat)
    (br op : String) (success : Bool) (details : String) (now : Nat) :
    List AuditRow :=
  log ++ [⟨username, ap, vid, br, op, now, success, details⟩]

/-- `Database.cleanup_old_logs` (464-489): batched delete of audit rows with
`timestamp < current_date - days`; the batching loop's net effect is one
filter. -/
def cleanupOldLogs (log : List AuditRow) (currentDate days : Nat) :
    List AuditRow :=
  log.filter fun r => ! decide (r.timestamp < currentDate - days)

/-- `Database.get_assets_to_archive` (491-523):
`WHERE status = 'active' AND archive_date <= current_date`. -/
def getAssetsToArchive (ch : List AssetMetadata) (currentDate : Nat) :
    List AssetMetadata :=
  ch.filter fun r => decide (r.status = "active" ∧ r.archive_date ≤ currentDate)

/-- `Database.get_assets_to_destroy` (525-557):
`WHERE status = 'archived' AND destroy_date <= current_date`. -/
def getAssetsToDestroy (ch : List AssetMetadata) (currentDate : Nat) :
    List AssetMetadata :=
  ch.filter fun r => decide (r.status = "archived" ∧ r.destroy_date ≤ currentDate)

/-- `Database.get_head_version` (559-581): newest row for
`(asset_path, branch)` regardless of status. -/
def getHeadVersion (ch : List AssetMetadata) (ap br : String) : Option Nat :=
  (pickLatest (ch.filter fun r => decide (r.asset_path = ap ∧ r.branch = br))).map
    (·.version_id)

/-- `Database.is_primary_file_changed` (583-615): first active row in the
branch with the checksum decides the change status and message. -/
def isPrimaryFileChanged (ch : List AssetMetadata) (chk ap br : String) :
    ChangeStatus :=
  match ch.find? (fun r =>
      decide (r.checksum = chk ∧ r.branch = br ∧ r.status = "active")) with
  | none => { changed := true, message := "The primary file is a new file" }
  | some row =>
    if row.asset_path = ap then
      { changed := false,
        message := "The same primary file already exists in the database" ++
          " with the asset path: " ++ row.asset_path ++
          " and version ID: " ++ toString row.version_id }
    else
      { changed := false,
        message := "The same primary file already exists in the database" ++
          " with a different file name " ++ row.primary_filename ++
          " and asset path: " ++ row.asset_path ++
          " and version ID: " ++ toString row.version_id }

/-! ## `ObjectStore` operations (`object_store.py`) -/

/-- HEAD content of a key on a branch. -/
def osHead (os : ObjStore) (br key : String) : Option String :=
  (os.heads.find? fun e => decide (e.1 = br ∧ e.2.1 = key)).map (·.2.2)

/-- Write a key's HEAD content (insert or overwrite). -/
def osSetHead (heads : List (String × String × String)) (br key content : String) :
    List (String × String × String) :=
  if heads.any (fun e => decide (e.1 = br ∧ e.2.1 = key)) then
    heads.map fun e => if decide (e.1 = br ∧ e.2.1 = key) then (br, key, content) else e
  else heads ++ [(br, key, content)]

/-- `ObjectStore.upload_file` (208-269): write the object, then commit; a
commit that would produce no diff — the uploaded bytes equal the current
HEAD content — raises the lakeFS `commit: no changes` error, surfaced as
`HTTPException(400, "File already exists: ...")`.  A successful commit
returns the fresh commit id and the object checksum (modelled as the
content). -/
def osUpload (os : ObjStore) (data key br : String) :
    ObjStore × Except PyExn (Nat × String) :=
  if osHead os br key = some data then
    (os, .error (.httpExc 400 ("File already exists: " ++ key)))
  else
    ({ heads := osSetHead os.heads br key data, nextCommit := os.nextCommit + 1 },
      .ok (os.nextCommit, data))

/-- `ObjectStore.delete_file` (353-385): drop the key at HEAD and commit;
a missing key is ignored. -/
def osDeleteFile (os : ObjStore) (key br : String) : ObjStore :=
  if os.heads.any (fun e => decide (e.1 = br ∧ e.2.1 = key)) then
    { heads := os.heads.filter fun e => ! decide (e.1 = br ∧ e.2.1 = key),
      nextCommit := os.nextCommit + 1 }
  else os

/-- Substring test for Python's `primary_file not in o.path`. -/
def listHasSub (sub : List Char) : List Char → Bool
  | [] => sub.isEmpty
  | c :: rest => sub.isPrefixOf (c :: rest) || listHasSub sub rest

/-- `ObjectStore.delete_associated_files` (388-423): in one commit, delete
every HEAD key under `pref` whose path does not contain `primaryFile` as a
substring; with no such key, no commit happens. -/
def deleteAssociatedFiles (os : ObjStore) (pref primaryFile br : String) :
    ObjStore :=
  let isVictim := fun (e : String × String × String) =>
    decide (e.1 = br) && List.isPrefixOf pref.data e.2.1.data
      && ! listHasSub primaryFile.data e.2.1.data
  if os.heads.any isVictim then
    { heads := os.heads.filter (fun e => ! isVictim e), nextCommit := os.nextCommit + 1 }
  else os

/-! ## `VectorStore` operations (`vector_store.py`) -/

/-- First path component (`asset_path.split('/', 1)[0]`) must name one of the
four media collections, else `ValueError`. -/
def fileTypeValid (ap : String) : Bool :=
  let ft := String.mk ((splitChar '/' ap.data).headD [])
  ft == "document" || ft == "audio" || ft == "video" || ft == "image"

/-- `VectorStore.archive_metadata` (173-217): `set_payload` of
`status = "archived"` on the points matching the filter.  The filter in the
source matches `asset_path` and `version_id` only; the `branch` condition is
commented out, so the `branch` argument is accepted but not used. -/
def vsArchiveMetadata (pts : List Point) (ap : String) (vid : Nat)
    (branch : String) : Except String (List Point) :=
  if ! fileTypeValid ap then
    .error ("Invalid file type: " ++ String.mk ((splitChar '/' ap.data).headD []))
  else
    let _ := branch
    .ok (pts.map fun p =>
      if decide (p.asset_path = ap ∧ p.version_id = vid) then
        { p with status := "archived" }
      else p)

/-- `VectorStore.delete_metadata` (219-260): delete the points matching the
filter; as in `archive_metadata` the `branch` condition is commented out. -/
def vsDeleteMetadata (pts : List Point) (ap : String) (vid : Nat)
    (branch : String) : Except String (List Point) :=
  if ! fileTypeValid ap then
    .error ("Invalid file type: " ++ String.mk ((splitChar '/' ap.data).headD []))
  else
    let _ := branch
    .ok (pts.filter fun p => ! decide (p.asset_path = ap ∧ p.version_id = vid))

/-! ## `AssetManager` — the lifecycle coordinator (`client.py`)

The permission check `_check_permission` (users table lookup) precedes every
operation and is independent of the state the claims discuss; the embeddings
below cover each operation from the point after that check. -/

/-- Result of one associated-file task as observed by
`asyncio.gather(..., return_exceptions=True)`: a `(filename, version_id)`
pair, Python `None`, or a captured exception object. -/
inductive TaskOutcome where
  | pair (filename : String) (vid : Option Nat)
  | noneRes
  | exn (e : PyExn)
deriving Repr, DecidableEq

/-- Python `dict(assoc).get(filename)`: the stored value if the key is
present (itself possibly `None`), else `None`. -/
def lookupAssoc (l : List (String × Option Nat)) (k : String) : Option Nat :=
  match l.find? (fun p => p.1 == k) with
  | some p => p.2
  | none => none

/-- `AssetManager._upload_assoc_task` (92-109).  `_sanitize_filename` runs
before the `try` block, so its exception escapes the task and is captured by
`gather` as an object.  Inside the handler, `e.status_code` is read
unconditionally: 400 resolves to the stored version of the filename in the
latest active record, another status logs and returns `None`, and an
exception carrying no `status_code` raises `AttributeError` out of the task. -/
def uploadAssocTask (os : ObjStore) (ch : List AssetMetadata)
    (data ap filename br : String) : ObjStore × TaskOutcome :=
  match sanitizeFilename filename with
  | .error e => (os, .exn e)
  | .ok fn =>
    match osUpload os data (ap ++ "/" ++ fn) br with
    | (os2, .ok (vid, _)) => (os2, .pair fn (some vid))
    | (os2, .error e) =>
      match statusCodeOf e with
      | some 400 =>
        match getLatestActiveAsset ch ap br with
        | some m => (os2, .pair fn (lookupAssoc m.associated_filenames fn))
        | none => (os2, .noneRes)
      | some _ => (os2, .noneRes)
      | none => (os2, .exn .attributeError)

/-- The `asyncio.gather` fan-out over associated files, run left-to-right
(each task touches its own key of the object store). -/
def runAssocTasks (ch : List AssetMetadata) (ap br : String) :
    ObjStore → List (String × String) → ObjStore × List TaskOutcome
  | os, [] => (os, [])
  | os, (data, fname) :: rest =>
    let t := uploadAssocTask os ch data ap fname br
    let rec2 := runAssocTasks ch ap br t.1 rest
    (rec2.1, t.2 :: rec2.2)

/-- The list comprehension `[r for r in results if r is not None]`: drops
only the literal `None` results — captured exception objects are kept. -/
def keptOutcomes (l : List TaskOutcome) : List TaskOutcome :=
  l.filter fun r => match r with | .noneRes => false | _ => true

/-- Pydantic validation of `associated_filenames : List[Tuple[str, str]]` at
`AssetMetadata(...)` construction: an exception object or a `(name, None)`
pair fails validation. -/
def validatePairs : List TaskOutcome → Except PyExn (List (String × Option Nat))
  | [] => .ok []
  | .pair fn (some v) :: rest => (validatePairs rest).map (fun t => (fn, some v) :: t)
  | .pair _ none :: _ => .error .validationError
  | .exn _ :: _ => .error .validationError
  | .noneRes :: _ => .error .validationError

/-- The `dict(associated_filenames)` conversion on the NoChange path: pairs
convert; an exception object in the list raises `TypeError`. -/
def toPairsForDict : List TaskOutcome → Except PyExn (List (String × Option Nat))
  | [] => .ok []
  | .pair fn v :: rest => (toPairsForDict rest).map (fun t => (fn, v) :: t)
  | .noneRes :: _ => .error .typeError
  | .exn _ :: _ => .error .typeError

/-- Python `dict` insertion: an existing key keeps its position and takes the
new value; a new key is appended. -/
def dictInsert (d : List (String × Option Nat)) (k : String) (v : Option Nat) :
    List (String × Option Nat) :=
  if d.any (fun p => p.1 == k) then
    d.map fun p => if p.1 == k then (k, v) else p
  else d ++ [(k, v)]

/-- `dict(l)` on a pair list. -/
def dictOfList (l : List (String × Option Nat)) : List (String × Option Nat) :=
  l.foldl (fun d p => dictInsert d p.1 p.2) []

/-- `d = dict(base); d.update(dict(upd)); list(d.items())` — the merge used
for `associated_filenames` (new pairs win, insertion order kept). -/
def dictUpdate (base upd : List (String × Option Nat)) :
    List (String × Option Nat) :=
  upd.foldl (fun d p => dictInsert d p.1 p.2) (dictOfList base)

/-- `AssetManager.upload_files` (111-226).  `basePathRaw` stands for
`detect_file_type(...)["base_path"]` (`utils.py` is not among the sources).
Returns the final object store, database and either the returned
`AssetMetadata` or the escaping exception. -/
def uploadFiles (os : ObjStore) (db : DBState) (username br : String)
    (primaryData primaryFilename basePathRaw : String)
    (associated : List (String × String)) (now archiveTtl destroyTtl : Nat) :
    ObjStore × DBState × Except PyExn AssetMetadata :=
  match computePrimaryNames basePathRaw primaryFilename with
  | .error e => (os, db, .error e)
  | .ok (ap, pfn) =>
    let archiveDate := now + archiveTtl
    let destroyDate := archiveDate + destroyTtl
    match osUpload os primaryData (ap ++ "/" ++ pfn) br with
    | (os1, .ok (vid, chk)) =>
      let os2 := deleteAssociatedFiles os1 ap pfn br
      let run := runAssocTasks db.commit_history ap br os2 associated
      let os3 := run.1
      let outs := run.2
      match validatePairs (keptOutcomes outs) with
      | .error e => (os3, db, .error e)
      | .ok pairs =>
        let m : AssetMetadata :=
          { asset_path := ap, version_id := vid, primary_filename := pfn,
            associated_filenames := pairs, upload_date := now,
            archive_date := archiveDate, destroy_date := destroyDate,
            branch := br, status := "active", checksum := chk,
            change_status := isPrimaryFileChanged db.commit_history chk ap br }
        let db' : DBState :=
          { commit_history := saveMetadata db.commit_history m,
            audit_log := logAccess db.audit_log username ap (some vid) br
              ("upload") true ("") now }
        (os3, db', .ok m)
    | (os1, .error e) =>
      match statusCodeOf e with
      | some 400 =>
        match getLatestActiveAsset db.commit_history ap br with
        | none => (os1, db, .error .attributeError)
        | some prior =>
          let run := runAssocTasks db.commit_history ap br os1 associated
          let os3 := run.1
          let outs := run.2
          match toPairsForDict (keptOutcomes outs) with
          | .error e2 => (os3, db, .error e2)
          | .ok newPairs =>
            let m : AssetMetadata :=
              { prior with
                associated_filenames := dictUpdate prior.associated_filenames newPairs,
                change_status :=
                  isPrimaryFileChanged db.commit_history prior.checksum ap br }
            let db' : DBState :=
              { commit_history := saveMetadata db.commit_history m,
                audit_log := logAccess db.audit_log username ap (some prior.version_id)
                  br ("upload") true ("") now }
            (os3, db', .ok m)
      | _ => (os1, db, .error (.httpExc 500 ("Failed to upload primary file")))

/-- First captured exception among the gathered results — with
`return_exceptions=False`, `asyncio.gather` re-raises it. -/
def firstExn (l : List TaskOutcome) : Option PyExn :=
  match l.find? (fun r => match r with | .exn _ => true | _ => false) with
  | some (.exn e) => some e
  | _ => none

/-- `AssetManager.add_associated_files` (228-323). -/
def addAssociatedFiles (os : ObjStore) (db : DBState) (username br apRaw : String)
    (files : List (String × String)) (targetVid : Option Nat) (now : Nat) :
    ObjStore × DBState × Except PyExn AssetMetadata :=
  if files.isEmpty then
    (os, db, .error (.httpExc 400 ("No associated files provided")))
  else
    match sanitizePath apRaw with
    | .error e => (os, db, .error e)
    | .ok ap =>
      let target? := match targetVid with
        | some v => getAssetByPathAndVersion db.commit_history ap v br
        | none => getLatestActiveAsset db.commit_history ap br
      match target? with
      | none => (os, db, .error (.httpExc 404 ("Asset not found for " ++ ap)))
      | some m =>
        if m.status ≠ "active" then
          (os, db, .error (.httpExc 400
            ("Target asset version is not active (status: " ++ m.status ++ ")")))
        else
          let run := runAssocTasks db.commit_history ap br os files
          let os1 := run.1
          let outs := run.2
          match firstExn outs with
          | some e => (os1, db, .error e)
          | none =>
            let kept := keptOutcomes outs
            if kept.isEmpty then
              (os1, db, .error (.httpExc 500 ("All associated file uploads failed")))
            else
              match toPairsForDict kept with
              | .error e2 => (os1, db, .error e2)
              | .ok newPairs =>
                let m' := { m with
                  associated_filenames :=
                    dictUpdate m.associated_filenames newPairs }
                let db' : DBState :=
                  { commit_history := saveMetadata db.commit_history m',
                    audit_log := logAccess db.audit_log username ap
                      (some m.version_id) br ("add_associated_files") true
                      ("Added " ++ toString newPairs.length ++ " associated files")
                      now }
                (os1, db', .ok m')

/-- Outcome of a coordinator call whose source can spin forever: it returns a
value, raises, or never returns (`hangs`). -/
inductive OpResult (α : Type) where
  | ok (a : α)
  | raised (e : PyExn)
  | hangs
deriving Repr, DecidableEq

/-- The `while True` read-back loop at the end of `archive` (441-444).  The
embedded store does not change between iterations, so a first read that does
not show `status == "archived"` is repeated verbatim forever: the loop exits
on the first read or never; a vanished row raises `AttributeError` at
`metadata.status`. -/
def pollArchive (ch : List AssetMetadata) (ap : String) (vid : Nat) (br : String) :
    OpResult AssetMetadata :=
  match getAssetByPathAndVersion ch ap vid br with
  | none => .raised .attributeError
  | some m => if m.status = "archived" then .ok m else .hangs

/-- The same `while True` loop against an arbitrary sequence of observed
statuses (one per iteration, modelling read-after-write lag): `true` iff the
loop has exited within `fuel` iterations. -/
def pollLoopExits (reads : Nat → String) : Nat → Bool
  | 0 => false
  | fuel + 1 =>
    if reads 0 = "archived" then true
    else pollLoopExits (fun i => reads (i + 1)) fuel

/-- `AssetManager.archive` (403-445): load, check `status == "active"`,
update the row, mark the vector mirror (failures logged only), audit, then
block until the row reads back as archived. -/
def archiveOp (db : DBState) (pts : List Point) (username br apRaw : String)
    (vid now : Nat) : DBState × List Point × OpResult AssetMetadata :=
  match sanitizePath apRaw with
  | .error e => (db, pts, .raised e)
  | .ok ap =>
    match getAssetByPathAndVersion db.commit_history ap vid br with
    | none =>
      let logF :=
        logAccess db.audit_log username ap (some vid) br ("archive") false
          ("Asset not found") now
      ({ db with audit_log := logF }, pts,
        .raised (.httpExc 404 ("Asset with asset_path " ++ ap ++
          " and version_id " ++ toString vid ++ " not found")))
    | some m =>
      if m.status ≠ "active" then
        let logF :=
          logAccess db.audit_log username ap (some vid) br ("archive") false
            ("Asset is " ++ m.status) now
        ({ db with audit_log := logF }, pts,
          .raised (.httpExc 400 ("Asset " ++ ap ++ "/" ++ toString vid ++
            " is already " ++ m.status)))
      else
        let ch1 := updateStatusDb db.commit_history ap vid ("archived") br
        let pts1 := match vsArchiveMetadata pts ap vid br with
          | .ok p => p
          | .error _ => pts
        let logS :=
          logAccess db.audit_log username ap (some vid) br ("archive") true
            ("") now
        let db1 : DBState := { commit_history := ch1, audit_log := logS }
        (db1, pts1, pollArchive db1.commit_history ap vid br)

/-- The `delete_assoc` closure inside `destroy` (493-498): delete each
associated file with a truthy filename; errors are logged and ignored. -/
def deleteAssocList (os : ObjStore) (ap br : String) :
    List (String × Option Nat) → ObjStore
  | [] => os
  | (fname, _) :: rest =>
    let os' := if fname ≠ "" then osDeleteFile os (ap ++ "/" ++ fname) br else os
    deleteAssocList os' ap br rest

/-- `AssetManager.destroy` (476-539): load, check `status == "archived"`,
delete the blobs only when the version is the branch HEAD, delete the
metadata row and its audit rows, delete the mirror point (failures logged
only), audit, and return the record with `status = "destroyed"`. -/
def destroyOp (os : ObjStore) (db : DBState) (pts : List Point)
    (username br apRaw : String) (vid now : Nat) :
    ObjStore × DBState × List Point × OpResult AssetMetadata :=
  match sanitizePath apRaw with
  | .error e => (os, db, pts, .raised e)
  | .ok ap =>
    match getAssetByPathAndVersion db.commit_history ap vid br with
    | none =>
      let logF :=
        logAccess db.audit_log username ap (some vid) br ("destroy") false
          ("Asset not found") now
      (os, { db with audit_log := logF }, pts,
        .raised (.httpExc 404 ("Asset with asset_path " ++ ap ++
          " and version_id " ++ toString vid ++ " not found")))
    | some m =>
      if m.status ≠ "archived" then
        let logF :=
          logAccess db.audit_log username ap (some vid) br ("destroy") false
            ("Asset is " ++ m.status) now
        (os, { db with audit_log := logF }, pts,
          .raised (.httpExc 400 ("Asset " ++ ap ++ "/" ++ toString vid ++
            " is not archived")))
      else
        let os1 :=
          if getHeadVersion db.commit_history ap br = some m.version_id then
            deleteAssocList (osDeleteFile os (ap ++ "/" ++ m.primary_filename) br)
              ap br m.associated_filenames
          else os
        let db1 := deleteMetadataDb db ap vid br
        let pts1 := match vsDeleteMetadata pts ap vid br with
          | .ok p => p
          | .error _ => pts
        let logS :=
          logAccess db1.audit_log username ap (some vid) br ("destroy") true
            ("") now
        let db2 : DBState := { db1 with audit_log := logS }
        (os1, db2, pts1, .ok { m with status := "destroyed" })

/-- One `safe_archive(asset)` call of `auto_archive` (447-474): archive an
asset, logging and swallowing failures; a hang in the read-back loop stops
the job (the remaining assets are never reached). -/
def autoArchiveStep (currentDate : Nat)
    (acc : DBState × List Point × List AssetMetadata × Bool)
    (a : AssetMetadata) : DBState × List Point × List AssetMetadata × Bool :=
  if acc.2.2.2 then acc
  else
    let step := archiveOp acc.1 acc.2.1 ("admin") a.branch a.asset_path
      a.version_id currentDate
    match step.2.2 with
    | .ok m => (step.1, step.2.1, acc.2.2.1 ++ [m], false)
    | .raised _ => (step.1, step.2.1, acc.2.2.1, false)
    | .hangs => (step.1, step.2.1, acc.2.2.1, true)

/-- `AssetManager.auto_archive` (447-474): fetch the due assets once, then
archive each under `safe_archive`, which logs and swallows exceptions.  The
last component records whether some `archive` call hung in its read-back
loop (the real `gather` would then never finish); assets after that point
are not processed. -/
def autoArchive (db : DBState) (pts : List Point) (currentDate : Nat) :
    DBState × List Point × List AssetMetadata × Bool :=
  let assets := getAssetsToArchive db.commit_history currentDate
  assets.foldl (autoArchiveStep currentDate) (db, pts, [], false)

/-- One `safe_destroy(asset)` call of `auto_destroy` (541-571). -/
def autoDestroyStep (currentDate : Nat)
    (acc : ObjStore × DBState × List Point × List AssetMetadata)
    (a : AssetMetadata) : ObjStore × DBState × List Point × List AssetMetadata :=
  let step := destroyOp acc.1 acc.2.1 acc.2.2.1 ("admin") a.branch
    a.asset_path a.version_id currentDate
  match step.2.2.2 with
  | .ok m => (step.1, step.2.1, step.2.2.1, acc.2.2.2 ++ [m])
  | _ => (step.1, step.2.1, step.2.2.1, acc.2.2.2)

/-- `AssetManager.auto_destroy` (541-571): purge audit rows older than 120
days, fetch the due assets once, then destroy each under `safe_destroy`. -/
def autoDestroy (os : ObjStore) (db : DBState) (pts : List Point)
    (currentDate : Nat) :
    ObjStore × DBState × List Point × List AssetMetadata :=
  let db0 : DBState :=
    { db with audit_log := cleanupOldLogs db.audit_log currentDate 120 }
  let assets := getAssetsToDestroy db0.commit_history currentDate
  assets.foldl (autoDestroyStep currentDate) (os, db0, pts, [])

/-- `run_auto_archive` (`endpoints.py` 75-81) calls
`manager.auto_archive()` with no argument.  Python evaluates the default
`current_date: datetime = datetime.now(...)` once, when the class body runs
at module import; every scheduler-triggered invocation therefore reuses that
frozen timestamp, here `importTime`.  The wall-clock time of the invocation,
`invocationTime`, does not reach the query. -/
def runAutoArchive (importTime : Nat) (db : DBState) (pts : List Point)
    (invocationTime : Nat) : DBState × List Point × List AssetMetadata × Bool :=
  let _ := invocationTime
  autoArchive db pts importTime

/-- One public state-changing call of the coordinator.  `retrieve` and
`list_file_versions` only read `commit_history` and are omitted. -/
inductive CoordOp where
  | upload (username br primaryData primaryFilename basePathRaw : String)
      (associated : List (String × String)) (archiveTtl destroyTtl : Nat)
  | addAssoc (username br apRaw : String) (files : List (String × String))
      (targetVid : Option Nat)
  | archive (username br apRaw : String) (vid : Nat)
  | destroy (username br apRaw : String) (vid : Nat)
  | autoArch (currentDate : Nat)
  | autoDest (currentDate : Nat)

/-- Dispatch one coordinator call and keep the resulting three stores. -/
def applyCoordOp (os : ObjStore) (db : DBState) (pts : List Point) (now : Nat) :
    CoordOp → ObjStore × DBState × List Point
  | .upload u br dat fn bp assoc aTtl dTtl =>
    let r := uploadFiles os db u br dat fn bp assoc now aTtl dTtl
    (r.1, r.2.1, pts)
  | .addAssoc u br apRaw files tv =>
    let r := addAssociatedFiles os db u br apRaw files tv now
    (r.1, r.2.1, pts)
  | .archive u br apRaw vid =>
    let r := archiveOp db pts u br apRaw vid now
    (os, r.1, r.2.1)
  | .destroy u br apRaw vid =>
    let r := destroyOp os db pts u br apRaw vid now
    (r.1, r.2.1, r.2.2.1)
  | .autoArch currentDate =>
    let r := autoArchive db pts currentDate
    (os, r.1, r.2.1)
  | .autoDest currentDate =>
    let r := autoDestroy os db pts currentDate
    (r.1, r.2.1, r.2.2.1)

/-! ## Lifecycle vocabulary -/

/-- Position of a status along `active → archived → destroyed`. -/
def statusRank : String → Nat
  | "archived" => 1
  | "destroyed" => 2
  | _ => 0

/-- The `commit_history` table respects its SQL primary key: no two rows
share `(asset_path, version_id, branch)`. -/
def WFch (ch : List AssetMetadata) : Prop :=
  ch.Pairwise (fun a b => samePK a b = false)

/-- Every stored commit id was handed out by the store, hence is below the
store's commit counter — uploads therefore never reuse a row key. -/
def FreshIds (os : ObjStore) (ch : List AssetMetadata) : Prop :=
  ∀ r ∈ ch, r.version_id < os.nextCommit

/-- No persisted row carries status `destroyed`: `destroy` deletes the row
and only stamps `destroyed` on the returned in-memory copy. -/
def NoDestroyed (ch : List AssetMetadata) : Prop :=
  ∀ r ∈ ch, statusRank r.status ≤ 1

/-- Between two table states, any row that keeps its primary key never moves
backwards along the lifecycle. -/
def statusForward (a b : List AssetMetadata) : Prop :=
  ∀ r' ∈ b, ∀ r ∈ a, samePK r r' = true →
    statusRank r.status ≤ statusRank r'.status

/-- Every row of `b` descends from a same-key row of `a` without moving
backwards (used to compose the per-asset steps of the scheduler jobs). -/
def descendsForward (a b : List AssetMetadata) : Prop :=
  ∀ r' ∈ b, ∃ r ∈ a, samePK r r' = true ∧
    statusRank r.status ≤ statusRank r'.status

/-! ## C8 — filename sanitization -/

/-- The spec's three sanitization steps, written from the spec's own words
("URL-percent-decodes, strips any directory prefix, replaces characters not
matching the class with an underscore"), for comparison with
`sanitizeFilename`. -/
def specSanitizeSteps (s : String) : String :=
  String.mk (((splitChar '/' (pyUnquote s).data).getLastD []).map sanitizeChar)

/-- The spec's claimed character class `[A-Za-z0-9_.-]`, written from the
spec's words, for comparison with the code's `\w`-based class. -/
def asciiClassChar (c : Char) : Bool :=
  ('A' ≤ c && c ≤ 'Z') || ('a' ≤ c && c ≤ 'z') || ('0' ≤ c && c ≤ '9')
    || c = '_' || c = '.' || c = '-'

/-- Every character produced by the substitution step lies in the kept
class. -/
theorem sanitizeChar_allowed (c : Char) : pyAllowedChar (sanitizeChar c) = true := by
  unfold sanitizeChar
  by_cases h : pyAllowedChar c = true
  · simp [h]
  · simp [h]
    decide

/-- C8 counterexample: the claim says sanitization maps every character
outside `[A-Za-z0-9_.-]` to an underscore, so the returned filename holds
only characters of that class.  Python's `\w` is Unicode-aware, so the
input `"é"` is returned unchanged even though `é` lies outside the class. -/
theorem c8_counterexample :
    sanitizeFilename "é" = .ok "é" ∧ "é".data.all asciiClassChar = false := by
  exact ⟨rfl, by decide⟩

/-- C8 (amended): `_sanitize_filename` percent-decodes, keeps the part after
the last `/`, replaces every character that is neither a Python word
character (`\w`, Unicode-aware) nor `.` nor `-` by `_`, rejects with an
HTTP 400 exactly the inputs whose processed form is `""`, `"."` or `".."`,
and otherwise returns the processed form, all of whose characters lie in
the kept class. -/
theorem c8_sanitize_filename_characterisation (s : String) :
    (((specSanitizeSteps s).data = [] ∨ (specSanitizeSteps s).data = ['.'] ∨
        (specSanitizeSteps s).data = ['.', '.']) →
      ∃ d, sanitizeFilename s = .error (.httpExc 400 d)) ∧
    (¬((specSanitizeSteps s).data = [] ∨ (specSanitizeSteps s).data = ['.'] ∨
        (specSanitizeSteps s).data = ['.', '.']) →
      sanitizeFilename s = .ok (specSanitizeSteps s)) ∧
    (∀ c ∈ (specSanitizeSteps s).data, pyAllowedChar c = true) := by
  refine ⟨?_, ?_, ?_⟩
  · intro hbad
    by_cases hs : s = ""
    · exact ⟨"Filename is required", by rw [hs]; rfl⟩
    · refine ⟨"Invalid filename", ?_⟩
      have hbad2 : List.map sanitizeChar ((splitChar '/' (pyUnquote s).data).getLastD []) = [] ∨
          List.map sanitizeChar ((splitChar '/' (pyUnquote s).data).getLastD []) = ['.'] ∨
          List.map sanitizeChar ((splitChar '/' (pyUnquote s).data).getLastD []) = ['.', '.'] := hbad
      simp only [sanitizeFilename]
      rw [if_neg hs, if_pos hbad2]
  · intro hgood
    have hs : s ≠ "" := fun hs => hgood (Or.inl (by rw [hs]; decide))
    have hgood2 : ¬(List.map sanitizeChar ((splitChar '/' (pyUnquote s).data).getLastD []) = [] ∨
        List.map sanitizeChar ((splitChar '/' (pyUnquote s).data).getLastD []) = ['.'] ∨
        List.map sanitizeChar ((splitChar '/' (pyUnquote s).data).getLastD []) = ['.', '.']) := hgood
    simp only [sanitizeFilename]
    rw [if_neg hs, if_neg hgood2]
    rfl
  · intro c hc
    have hc2 : c ∈ ((splitChar '/' (pyUnquote s).data).getLastD []).map sanitizeChar := hc
    obtain ⟨c0, _, rfl⟩ := List.mem_map.mp hc2
    exact sanitizeChar_allowed c0

/-- C8 witness: a concrete input with a space and an uppercase letter is
accepted and rewritten as the amended claim states. -/
theorem c8_witness :
    ¬((specSanitizeSteps "My report.txt").data = [] ∨
        (specSanitizeSteps "My report.txt").data = ['.'] ∨
        (specSanitizeSteps "My report.txt").data = ['.', '.']) ∧
    sanitizeFilename "My report.txt" = .ok (specSanitizeSteps "My report.txt") := by
  refine ⟨by decide, ?_⟩
  exact (c8_sanitize_filename_characterisation "My report.txt").2.1 (by decide)

/-! ## C7 — the vector mirror matches keys without the branch -/

/-- Two mirror points sharing `(asset_path, version_id)` on different
branches. -/
def c7mirror : List Point :=
  [{ pid := 1, asset_path := "document/a", version_id := 5, branch := "b1",
     status := "active" },
   { pid := 2, asset_path := "document/a", version_id := 5, branch := "b2",
     status := "active" }]

/-- C7 counterexample: marking `("document/a", 5, "b1")` archived also
rewrites the point of branch `"b2"`, and deleting it also removes that
point — the branch condition is commented out in the source filter, so
records of other branches are not left unchanged. -/
theorem c7_counterexample :
    vsArchiveMetadata c7mirror "document/a" 5 "b1" =
      .ok [{ pid := 1, asset_path := "document/a", version_id := 5,
             branch := "b1", status := "archived" },
           { pid := 2, asset_path := "document/a", version_id := 5,
             branch := "b2", status := "archived" }] ∧
    vsDeleteMetadata c7mirror "document/a" 5 "b1" = .ok [] := by
  exact ⟨rfl, rfl⟩

/-- C7 (amended): `archive_metadata` and `delete_metadata` touch exactly the
points matching `(asset_path, version_id)` — the `branch` argument is
ignored.  Points differing in `asset_path` or `version_id` are unchanged;
every matching point is re-stamped `archived`, respectively removed. -/
theorem c7_mirror_key_scope (pts : List Point) (ap : String) (vid : Nat)
    (br : String) (hft : fileTypeValid ap = true) :
    ∃ l₁ l₂, vsArchiveMetadata pts ap vid br = .ok l₁ ∧
      vsDeleteMetadata pts ap vid br = .ok l₂ ∧
      (∀ p ∈ pts, (p.asset_path ≠ ap ∨ p.version_id ≠ vid) → p ∈ l₁ ∧ p ∈ l₂) ∧
      (∀ p ∈ pts, p.asset_path = ap → p.version_id = vid →
        { p with status := "archived" } ∈ l₁ ∧ p ∉ l₂) := by
  refine ⟨pts.map (fun p =>
      if p.asset_path = ap ∧ p.version_id = vid then { p with status := "archived" }
      else p),
    pts.filter (fun p => ! decide (p.asset_path = ap ∧ p.version_id = vid)),
    ?_, ?_, ?_, ?_⟩
  · simp [vsArchiveMetadata, hft]
  · simp [vsDeleteMetadata, hft]
  · intro p hp hne
    have hcond : ¬(p.asset_path = ap ∧ p.version_id = vid) := by
      rcases hne with h | h <;> tauto
    constructor
    · refine List.mem_map.mpr ⟨p, hp, ?_⟩
      simp [hcond]
    · refine List.mem_filter.mpr ⟨hp, ?_⟩
      simp [hcond]
  · intro p hp h1 h2
    constructor
    · refine List.mem_map.mpr ⟨p, hp, ?_⟩
      simp [h1, h2]
    · intro hmem
      have := (List.mem_filter.mp hmem).2
      simp [h1, h2] at this

/-- C7 witness: the amended scope property at a concrete mirror. -/
theorem c7_witness :
    ∃ l₁ l₂, vsArchiveMetadata c7mirror "document/a" 5 "b1" = .ok l₁ ∧
      vsDeleteMetadata c7mirror "document/a" 5 "b1" = .ok l₂ ∧
      (∀ p ∈ c7mirror, (p.asset_path ≠ "document/a" ∨ p.version_id ≠ 5) →
        p ∈ l₁ ∧ p ∈ l₂) ∧
      (∀ p ∈ c7mirror, p.asset_path = "document/a" → p.version_id = 5 →
        { p with status := "archived" } ∈ l₁ ∧ p ∉ l₂) :=
  c7_mirror_key_scope c7mirror "document/a" 5 "b1" (by decide)

/-! ## C6 — the archive read-back loop has no deadline -/

/-- A read sequence that never shows `archived` keeps the loop spinning for
any number of iterations. -/
theorem pollLoopExits_const_active (n : Nat) :
    ∀ reads : Nat → String, (∀ i, reads i = "active") →
      pollLoopExits reads n = false := by
  induction n with
  | zero => intro reads _; rfl
  | succ k ih =>
    intro reads h
    simp only [pollLoopExits, h 0]
    rw [if_neg (by simp)]
    exact ih _ (fun i => h (i + 1))

/-- C6 counterexample: the claim says the block-until-visible loop is
bounded by a deadline.  The source loop is `while True` with no deadline: a
read sequence that never observes `archived` (read-after-write lag) exceeds
every bound. -/
theorem c6_counterexample :
    ¬ ∃ n, pollLoopExits (fun _ => "active") n = true := by
  rintro ⟨n, h⟩
  rw [pollLoopExits_const_active n _ (fun _ => rfl)] at h
  exact Bool.false_ne_true h

/-- C6 (amended): after the status update, `archive` polls the record in an
unbounded `while True` loop; it exits exactly when some poll observes
`archived` — under the embedded store's immediate visibility, the first poll
does — and a read sequence never showing `archived` loops forever. -/
theorem c6_poll_characterisation :
    (∀ (reads : Nat → String) (n : Nat),
      pollLoopExits reads n = true ↔ ∃ i, i < n ∧ reads i = "archived") ∧
    (∀ ch ap vid br m, getAssetByPathAndVersion ch ap vid br = some m →
      m.status = "archived" → pollArchive ch ap vid br = .ok m) := by
  constructor
  · intro reads n
    induction n generalizing reads with
    | zero => simp [pollLoopExits]
    | succ k ih =>
      by_cases h0 : reads 0 = "archived"
      · simp only [pollLoopExits, h0, if_pos rfl]
        exact ⟨fun _ => ⟨0, Nat.succ_pos k, h0⟩, fun _ => rfl⟩
      · simp only [pollLoopExits, if_neg h0]
        rw [ih]
        constructor
        · rintro ⟨i, hik, hi⟩
          exact ⟨i + 1, by omega, hi⟩
        · rintro ⟨i, hik, hi⟩
          match i with
          | 0 => exact absurd hi h0
          | j + 1 => exact ⟨j, by omega, hi⟩
  · intro ch ap vid br m hget hstat
    simp [pollArchive, hget, hstat]

/-- A row already archived, for instantiating C6. -/
def c6row : AssetMetadata :=
  { asset_path := "document/g", version_id := 3, primary_filename := "g.txt",
    associated_filenames := [], upload_date := 90, archive_date := 150,
    destroy_date := 400, branch := "b", status := "archived",
    checksum := "Hello" }

/-- C6 witness: a loop whose first read is `archived` exits, and the poll on
a store holding the archived row returns it. -/
theorem c6_witness :
    pollLoopExits (fun _ => "archived") 1 = true ∧
    pollArchive [c6row] "document/g" 3 "b" = .ok c6row := by
  constructor
  · exact (c6_poll_characterisation.1 (fun _ => "archived") 1).mpr
      ⟨0, Nat.zero_lt_one, rfl⟩
  · exact c6_poll_characterisation.2 [c6row] "document/g" 3 "b" c6row rfl rfl

/-! ## C5 — the scheduler job runs on a frozen default clock -/

/-- An active row due for archiving at day 150. -/
def c5row : AssetMetadata :=
  { asset_path := "document/g", version_id := 3, primary_filename := "g.txt",
    associated_filenames := [], upload_date := 90, archive_date := 150,
    destroy_date := 400, branch := "b", status := "active",
    checksum := "Hello" }

/-- Database holding only that row. -/
def c5db : DBState := { commit_history := [c5row], audit_log := [] }

/-- C5 evaluation at the failing input: the module was imported at day 100;
the scheduler fires `run_auto_archive` at day 200, when `c5row` (archive
date 150) is due.  Because the `current_date` default was evaluated once at
import, the run selects against day 100 and archives nothing, and the result
of the job is the same whatever the invocation time; calling `auto_archive`
with the actual invocation time would have archived the row. -/
theorem c5_frozen_default_clock :
    c5row.archive_date ≤ 200 ∧ c5row.status = "active" ∧
    runAutoArchive 100 c5db [] 200 = runAutoArchive 100 c5db [] 999 ∧
    (runAutoArchive 100 c5db [] 200).1.commit_history = [c5row] ∧
    (runAutoArchive 100 c5db [] 200).2.2.1 = [] ∧
    (autoArchive c5db [] 200).2.2.1 = [{ c5row with status := "archived" }] := by
  refine ⟨by decide, rfl, rfl, rfl, rfl, rfl⟩

/-! ## C10 — branch scoping of `update_status` and `delete_metadata` -/

/-- C10: with a non-empty `branch`, `update_status` rewrites exactly the
rows matching `(asset_path, version_id, branch)` and `delete_metadata`
removes exactly those rows (and the matching audit rows); with an empty
`branch`, the same calls act on every row matching `(asset_path,
version_id)` across all branches.  Row counts are otherwise preserved. -/
theorem c10_branch_scoping (db : DBState) (ap : String) (vid : Nat)
    (st br : String) :
    (updateStatusDb db.commit_history ap vid st br).length =
      db.commit_history.length ∧
    (br ≠ "" →
      (∀ r ∈ db.commit_history,
        ¬(r.asset_path = ap ∧ r.version_id = vid ∧ r.branch = br) →
        r ∈ updateStatusDb db.commit_history ap vid st br) ∧
      (∀ r ∈ db.commit_history,
        (r.asset_path = ap ∧ r.version_id = vid ∧ r.branch = br) →
        { r with status := st } ∈ updateStatusDb db.commit_history ap vid st br) ∧
      (∀ r ∈ db.commit_history,
        (r ∈ (deleteMetadataDb db ap vid br).commit_history ↔
          ¬(r.asset_path = ap ∧ r.version_id = vid ∧ r.branch = br))) ∧
      (∀ a ∈ db.audit_log,
        (a ∈ (deleteMetadataDb db ap vid br).audit_log ↔
          ¬(a.asset_path = ap ∧ a.version_id = some vid ∧ a.branch = br)))) ∧
    (br = "" →
      (∀ r ∈ db.commit_history, ¬(r.asset_path = ap ∧ r.version_id = vid) →
        r ∈ updateStatusDb db.commit_history ap vid st br) ∧
      (∀ r ∈ db.commit_history, (r.asset_path = ap ∧ r.version_id = vid) →
        { r with status := st } ∈ updateStatusDb db.commit_history ap vid st br) ∧
      (∀ r ∈ db.commit_history,
        (r ∈ (deleteMetadataDb db ap vid br).commit_history ↔
          ¬(r.asset_path = ap ∧ r.version_id = vid))) ∧
      (∀ a ∈ db.audit_log,
        (a ∈ (deleteMetadataDb db ap vid br).audit_log ↔
          ¬(a.asset_path = ap ∧ a.version_id = some vid)))) := by
  refine ⟨?_, fun hbr => ⟨?_, ?_, ?_, ?_⟩, fun hbr => ⟨?_, ?_, ?_, ?_⟩⟩
  · unfold updateStatusDb
    split <;> simp
  · intro r hr hne
    simp only [updateStatusDb, if_pos hbr]
    exact List.mem_map.mpr ⟨r, hr, by simp [hne]⟩
  · intro r hr hmatch
    simp only [updateStatusDb, if_pos hbr]
    exact List.mem_map.mpr ⟨r, hr, by simp [hmatch]⟩
  · intro r hr
    simp only [deleteMetadataDb, deleteMetadataRows, if_pos hbr]
    simp [List.mem_filter, hr]
    tauto
  · intro a ha
    simp only [deleteMetadataDb, deleteAuditRows, if_pos hbr]
    simp [List.mem_filter, ha]
    tauto
  · intro r hr hne
    simp only [updateStatusDb, hbr]
    exact List.mem_map.mpr ⟨r, hr, by simp [hne]⟩
  · intro r hr hmatch
    simp only [updateStatusDb, hbr]
    exact List.mem_map.mpr ⟨r, hr, by simp [hmatch]⟩
  · intro r hr
    simp only [deleteMetadataDb, deleteMetadataRows, hbr]
    simp [List.mem_filter, hr]
    tauto
  · intro a ha
    simp only [deleteMetadataDb, deleteAuditRows, hbr]
    simp [List.mem_filter, ha]
    tauto

/-- C10 witness: the scoping property at a concrete two-branch table. -/
theorem c10_witness :
    let r1 : AssetMetadata :=
      { asset_path := "document/g", version_id := 3, primary_filename := "g.txt",
        associated_filenames := [], upload_date := 90, archive_date := 150,
        destroy_date := 400, branch := "b1", status := "active",
        checksum := "Hello" }
    let r2 : AssetMetadata := { r1 with branch := "b2" }
    let db : DBState := { commit_history := [r1, r2], audit_log := [] }
    r2 ∈ updateStatusDb db.commit_history "document/g" 3 "archived" "b1" ∧
    { r1 with status := "archived" } ∈
      updateStatusDb db.commit_history "document/g" 3 "archived" "b1" ∧
    (r2 ∈ (deleteMetadataDb db "document/g" 3 "b1").commit_history ↔
      ¬(r2.asset_path = "document/g" ∧ r2.version_id = 3 ∧ r2.branch = "b1")) := by
  intro r1 r2 db
  have h := c10_branch_scoping db "document/g" 3 "archived" "b1"
  have h2 := h.2.1 (by simp)
  refine ⟨?_, ?_, ?_⟩
  · exact h2.1 r2 (by simp [db]) (by simp [r2, r1])
  · exact h2.2.1 r1 (by simp [db]) (by simp [r1])
  · exact h2.2.2.1 r2 (by simp [db])

/-! ## C4 — a per-file exception object corrupts the upload -/

/-- An object store with no content. -/
def emptyOS : ObjStore := { heads := [], nextCommit := 0 }

/-- A database with no rows. -/
def emptyDB : DBState := { commit_history := [], audit_log := [] }

/-- C4 evaluation at the failing input: an associated file named `".."`.
`_sanitize_filename` raises before the task's `try` block, so
`gather(return_exceptions=True)` hands the `HTTPException` object back as a
result; `[r for r in results if r is not None]` keeps it, and pydantic's
validation of `associated_filenames` then fails — the whole upload raises an
unclassified error and writes no metadata, where the claim says the file is
dropped and the upload succeeds. -/
theorem c4_assoc_exception_breaks_upload :
    (runAssocTasks emptyDB.commit_history "document/greeting" "b"
        { heads := [("b", "document/greeting/greeting.txt", "Hello")],
          nextCommit := 1 } [("Bonjour", "..")]).2 =
      [.exn (.httpExc 400 ("Invalid filename"))] ∧
    keptOutcomes [.exn (.httpExc 400 ("Invalid filename"))] =
      [.exn (.httpExc 400 ("Invalid filename"))] ∧
    uploadFiles emptyOS emptyDB "alice" "b" "Hello" "greeting.txt" "document"
        [("Bonjour", "..")] 10 30 30 =
      ({ heads := [("b", "document/greeting/greeting.txt", "Hello")],
         nextCommit := 1 }, emptyDB, .error .validationError) := by
  exact ⟨rfl, rfl, rfl⟩

/-! ## C9 — NoChange with no active row dereferences `None` -/

/-- C9: when the primary commit reports NoChange (HTTP 400 from the object
store) but `get_latest_active_asset` finds no active row, `upload_files`
reads `latest_metadata.version_id` on `None`: the call fails with an
unclassified `AttributeError`, the object store is untouched and no
metadata is written. -/
theorem c9_nochange_requires_active_row (os : ObjStore) (db : DBState)
    (u br dat fn bp : String) (assoc : List (String × String))
    (now aTtl dTtl : Nat) (ap pfn : String)
    (hnames : computePrimaryNames bp fn = .ok (ap, pfn))
    (hhead : osHead os br (ap ++ "/" ++ pfn) = some dat)
    (hnone : getLatestActiveAsset db.commit_history ap br = none) :
    uploadFiles os db u br dat fn bp assoc now aTtl dTtl =
      (os, db, .error .attributeError) := by
  simp only [uploadFiles, hnames, osUpload, if_pos hhead, statusCodeOf, hnone]

/-- A store already holding the primary bytes at HEAD (for instance because
the only row for this path was archived while its blob stayed at HEAD). -/
def os9 : ObjStore :=
  { heads := [("b", "document/greeting/greeting.txt", "Hello")], nextCommit := 5 }

/-- C9 witness: NoChange against an empty metadata table. -/
theorem c9_witness :
    uploadFiles os9 emptyDB "alice" "b" "Hello" "greeting.txt" "document"
        [] 10 30 30 = (os9, emptyDB, .error .attributeError) :=
  c9_nochange_requires_active_row os9 emptyDB "alice" "b" "Hello" "greeting.txt"
    "document" [] 10 30 30 "document/greeting" "greeting.txt" rfl rfl rfl

/-! ## C1 — the NoChange upload returns the prior record with merged
associated files -/

/-- The embedded object store only ever raises the NoChange
`HTTPException(400)` and leaves the store untouched when it does. -/
theorem osUpload_error_inv (os : ObjStore) (data key br : String)
    (os2 : ObjStore) (e : PyExn)
    (h : osUpload os data key br = (os2, .error e)) :
    e = .httpExc 400 ("File already exists: " ++ key) ∧ os2 = os := by
  by_cases hc : osHead os br key = some data
  · rw [osUpload, if_pos hc] at h
    obtain ⟨h1, h2⟩ := Prod.mk.injEq .. ▸ h
    exact ⟨(Except.error.injEq .. ▸ h2.symm), h1.symm⟩
  · rw [osUpload, if_neg hc] at h
    simp at h

/-- With a filename that sanitizes, an associated-file task never escapes as
an exception object: its result is a pair or `None`. -/
theorem uploadAssocTask_no_exn (os : ObjStore) (ch : List AssetMetadata)
    (data ap fname br fn : String) (hfn : sanitizeFilename fname = .ok fn) :
    (uploadAssocTask os ch data ap fname br).2 = TaskOutcome.noneRes ∨
    ∃ f v, (uploadAssocTask os ch data ap fname br).2 = .pair f v := by
  simp only [uploadAssocTask, hfn]
  cases hup : osUpload os data (ap ++ "/" ++ fn) br with
  | mk os2 r =>
    cases r with
    | ok p =>
      right
      exact ⟨fn, some p.1, rfl⟩
    | error e =>
      obtain ⟨he, -⟩ := osUpload_error_inv os data (ap ++ "/" ++ fn) br os2 e hup
      subst he
      simp only [statusCodeOf]
      cases hga : getLatestActiveAsset ch ap br with
      | none => left; rfl
      | some m => right; exact ⟨fn, lookupAssoc m.associated_filenames fn, rfl⟩

/-- When every associated filename sanitizes, the gathered results convert
to a pair list (the fold that `dict(...)` performs succeeds). -/
theorem toPairsKept_ok (ch : List AssetMetadata) (ap br : String) :
    ∀ (assoc : List (String × String)) (os : ObjStore),
      (∀ df ∈ assoc, ∃ f2, sanitizeFilename df.2 = .ok f2) →
      ∃ pairs, toPairsForDict (keptOutcomes
        (runAssocTasks ch ap br os assoc).2) = .ok pairs := by
  intro assoc
  induction assoc with
  | nil => exact fun os _ => ⟨[], rfl⟩
  | cons df rest ih =>
    intro os h
    obtain ⟨data, fname⟩ := df
    obtain ⟨fn, hfn⟩ := h (data, fname) (List.mem_cons_self _ rest)
    have hrest : ∀ d ∈ rest, ∃ f2, sanitizeFilename d.2 = .ok f2 :=
      fun d hd => h d (List.mem_cons_of_mem _ hd)
    obtain ⟨pairs, hpairs⟩ := ih (uploadAssocTask os ch data ap fname br).1 hrest
    rcases uploadAssocTask_no_exn os ch data ap fname br fn hfn with hnone | ⟨f, v, hpair⟩
    · refine ⟨pairs, ?_⟩
      simp only [runAssocTasks, keptOutcomes, List.filter_cons] at hpairs ⊢
      rw [hnone]
      simpa using hpairs
    · refine ⟨(f, v) :: pairs, ?_⟩
      simp only [runAssocTasks, keptOutcomes, List.filter_cons] at hpairs ⊢
      rw [hpair]
      simp only [toPairsForDict, hpairs]
      rfl

/-- C1: when the primary commit resolves to NoChange and a latest active
record exists, `upload_files` returns that prior record: its `version_id`,
`checksum`, `upload_date`, `archive_date`, `destroy_date` and `status` are
the prior's; its `associated_filenames` is the prior's list merged with the
newly gathered pairs (keyed by filename, new pair winning); and the object
store is exactly the input store acted on by the associated uploads alone —
`delete_associated_files` is not invoked. -/
theorem c1_nochange_returns_merged_prior (os : ObjStore) (db : DBState)
    (u br dat fn bp : String) (assoc : List (String × String))
    (now aTtl dTtl : Nat) (ap pfn : String) (prior : AssetMetadata)
    (hnames : computePrimaryNames bp fn = .ok (ap, pfn))
    (hhead : osHead os br (ap ++ "/" ++ pfn) = some dat)
    (hprior : getLatestActiveAsset db.commit_history ap br = some prior)
    (hclean : ∀ df ∈ assoc, ∃ f2, sanitizeFilename df.2 = .ok f2) :
    ∃ newPairs m,
      toPairsForDict (keptOutcomes
        (runAssocTasks db.commit_history ap br os assoc).2) = .ok newPairs ∧
      uploadFiles os db u br dat fn bp assoc now aTtl dTtl =
        ((runAssocTasks db.commit_history ap br os assoc).1,
         { commit_history := saveMetadata db.commit_history m,
           audit_log := logAccess db.audit_log u ap (some prior.version_id) br
             ("upload") true ("") now },
         .ok m) ∧
      m.version_id = prior.version_id ∧ m.checksum = prior.checksum ∧
      m.upload_date = prior.upload_date ∧ m.archive_date = prior.archive_date ∧
      m.destroy_date = prior.destroy_date ∧ m.status = prior.status ∧
      m.associated_filenames = dictUpdate prior.associated_filenames newPairs := by
  obtain ⟨pairs, hpairs⟩ := toPairsKept_ok db.commit_history ap br assoc os hclean
  refine ⟨pairs,
    { prior with
      associated_filenames := dictUpdate prior.associated_filenames pairs,
      change_status :=
        isPrimaryFileChanged db.commit_history prior.checksum ap br },
    hpairs, ?_, rfl, rfl, rfl, rfl, rfl, rfl, rfl⟩
  simp only [uploadFiles, hnames, osUpload, if_pos hhead, statusCodeOf, hprior,
    hpairs]

/-- Prior state for the C1 witness: the primary bytes already at HEAD and an
active row with one associated file. -/
def c1prior : AssetMetadata :=
  { asset_path := "document/greeting", version_id := 2,
    primary_filename := "greeting.txt",
    associated_filenames := [("fr.txt", some 1)], upload_date := 5,
    archive_date := 35, destroy_date := 65, branch := "b", status := "active",
    checksum := "Hello" }

/-- Object store for the C1 witness. -/
def c1os : ObjStore :=
  { heads := [("b", "document/greeting/greeting.txt", "Hello")], nextCommit := 7 }

/-- Database for the C1 witness. -/
def c1db : DBState := { commit_history := [c1prior], audit_log := [] }

/-- C1 witness: a NoChange replay that uploads one new associated file. -/
theorem c1_witness :
    ∃ newPairs m,
      toPairsForDict (keptOutcomes
        (runAssocTasks c1db.commit_history "document/greeting" "b" c1os
          [("Bonjour", "fr.txt")]).2) = .ok newPairs ∧
      uploadFiles c1os c1db "alice" "b" "Hello" "greeting.txt" "document"
          [("Bonjour", "fr.txt")] 10 30 30 =
        ((runAssocTasks c1db.commit_history "document/greeting" "b" c1os
            [("Bonjour", "fr.txt")]).1,
         { commit_history := saveMetadata c1db.commit_history m,
           audit_log := logAccess c1db.audit_log "alice" "document/greeting"
             (some c1prior.version_id) "b" ("upload") true ("") 10 },
         .ok m) ∧
      m.version_id = c1prior.version_id ∧ m.checksum = c1prior.checksum ∧
      m.upload_date = c1prior.upload_date ∧
      m.archive_date = c1prior.archive_date ∧
      m.destroy_date = c1prior.destroy_date ∧ m.status = c1prior.status ∧
      m.associated_filenames = dictUpdate c1prior.associated_filenames newPairs :=
  c1_nochange_returns_merged_prior c1os c1db "alice" "b" "Hello" "greeting.txt"
    "document" [("Bonjour", "fr.txt")] 10 30 30 "document/greeting"
    "greeting.txt" c1prior rfl rfl rfl
    (by
      intro df hdf
      simp only [List.mem_singleton] at hdf
      subst hdf
      exact ⟨"fr.txt", rfl⟩)

/-! ## C3 — uploading identical bytes twice is idempotent -/

/-- Searching after a filter that keeps everything the search could hit is
searching the original list. -/
theorem find?_filter_of_imp {α : Type} (p q : α → Bool) (l : List α)
    (h : ∀ e, p e = true → q e = true) :
    (l.filter q).find? p = l.find? p := by
  induction l with
  | nil => rfl
  | cons e t ih =>
    by_cases hq : q e = true
    · rw [List.filter_cons_of_pos hq]
      by_cases hp : p e = true
      · rw [List.find?_cons_of_pos _ hp, List.find?_cons_of_pos _ hp]
      · rw [List.find?_cons_of_neg _ (by simp [hp]),
          List.find?_cons_of_neg _ (by simp [hp])]
        exact ih
    · rw [List.filter_cons_of_neg (by simp [hq]),
        List.find?_cons_of_neg _ (fun hpe => hq (h e hpe))]
      exact ih

/-- `List.find?` on a cons, as a single conditional equation. -/
theorem find?_cons_eq {α : Type} (p : α → Bool) (a : α) (l : List α) :
    List.find? p (a :: l) = if p a = true then some a else List.find? p l := by
  by_cases h : p a = true
  · rw [if_pos h]
    exact List.find?_cons_of_pos _ h
  · rw [if_neg h]
    exact List.find?_cons_of_neg _ h

/-- After `osSetHead`, the branch-and-key lookup finds the new content. -/
theorem find?_osSetHead (h : List (String × String × String))
    (br key c : String) :
    (osSetHead h br key c).find?
      (fun e => decide (e.1 = br ∧ e.2.1 = key)) = some (br, key, c) := by
  have hkeyp : decide ((br, key, c).1 = br ∧ ((br, key, c) : String × String × String).2.1 = key) = true := by
    simp
  unfold osSetHead
  by_cases hany : h.any (fun e => decide (e.1 = br ∧ e.2.1 = key)) = true
  · rw [if_pos hany]
    induction h with
    | nil => simp at hany
    | cons e t ih =>
      rw [List.map_cons]
      by_cases hp : (e.1 = br ∧ e.2.1 = key)
      · rw [if_pos (by rw [decide_eq_true_eq]; exact hp), find?_cons_eq,
          if_pos hkeyp]
      · rw [if_neg (by rw [decide_eq_true_eq]; exact hp), find?_cons_eq,
          if_neg (by rw [decide_eq_true_eq]; exact hp)]
        exact ih (by simpa [hp] using hany)
  · rw [if_neg hany]
    rw [Bool.not_eq_true, List.any_eq_false] at hany
    induction h with
    | nil =>
      rw [List.nil_append, find?_cons_eq, if_pos hkeyp]
    | cons e t ih =>
      rw [List.cons_append, find?_cons_eq,
        if_neg (hany e (List.mem_cons_self e t))]
      exact ih (fun x hx => hany x (List.mem_cons_of_mem e hx))

/-- The substring test accepts any suffix occurrence. -/
theorem listHasSub_suffix (sub : List Char) :
    ∀ pre : List Char, listHasSub sub (pre ++ sub) = true := by
  have hself : ∀ l : List Char, l.isPrefixOf l = true := by
    intro l
    induction l with
    | nil => rfl
    | cons c t ih => simp [List.isPrefixOf, ih]
  intro pre
  induction pre with
  | nil =>
    cases sub with
    | nil => rfl
    | cons c t => simp [listHasSub, hself]
  | cons p pt ih => simp [listHasSub, ih]

/-- Purging associated files does not touch a key that contains the primary
filename as a substring. -/
theorem osHead_deleteAssociatedFiles (os : ObjStore) (ap pfn br key : String)
    (hsub : listHasSub pfn.data key.data = true) :
    osHead (deleteAssociatedFiles os ap pfn br) br key = osHead os br key := by
  unfold deleteAssociatedFiles osHead
  dsimp only
  split
  · simp only
    rw [find?_filter_of_imp]
    intro e hpe
    have h2 : e.2.1 = key := (of_decide_eq_true hpe).2
    simp [h2, hsub]
  · rfl

/-- `pickLatest` of a one-element list. -/
theorem pickLatest_singleton (m : AssetMetadata) : pickLatest [m] = some m := rfl

/-- `getLatestActiveAsset` on a table whose old rows all live elsewhere
finds the one new active row. -/
theorem getLatestActiveAsset_append (ch : List AssetMetadata)
    (m : AssetMetadata) (ap br : String)
    (hold : ∀ r ∈ ch, ¬(r.asset_path = ap ∧ r.branch = br))
    (hm : m.asset_path = ap ∧ m.status = "active" ∧ m.branch = br) :
    getLatestActiveAsset (ch ++ [m]) ap br = some m := by
  unfold getLatestActiveAsset
  rw [List.filter_append]
  rw [List.filter_eq_nil_iff.mpr (by
    intro r hr
    simp only [decide_eq_true_eq]
    intro hcon
    exact hold r hr ⟨hcon.1, hcon.2.2⟩)]
  rw [List.nil_append, List.filter_cons_of_pos (by simp [hm.1, hm.2.1, hm.2.2])]
  rfl

/-- `saveMetadata` against a table with no matching key appends. -/
theorem saveMetadata_append (ch : List AssetMetadata) (m : AssetMetadata)
    (hnew : ∀ r ∈ ch, samePK r { m with change_status := {} } = false) :
    saveMetadata ch m = ch ++ [{ m with change_status := {} }] := by
  unfold saveMetadata
  rw [if_neg (by simp [List.any_eq_false.mpr (by simpa using hnew)])]

/-- `saveMetadata` that re-writes an already stored row with its own stored
contents leaves the table unchanged. -/
theorem saveMetadata_rewrite_self (ch : List AssetMetadata) (m : AssetMetadata)
    (hmem : { m with change_status := {} } ∈ ch)
    (huniq : ∀ r ∈ ch, samePK r { m with change_status := {} } = true →
      r = { m with change_status := {} }) :
    saveMetadata ch m = ch := by
  unfold saveMetadata
  rw [if_pos]
  · conv_rhs => rw [← List.map_id ch]
    refine List.map_congr_left ?_
    intro r hr
    by_cases hpk : samePK r { m with change_status := {} } = true
    · rw [if_pos hpk, huniq r hr hpk]
      rfl
    · rw [if_neg hpk]
      rfl
  · exact List.any_eq_true.mpr ⟨{ m with change_status := {} }, hmem, by
      simp [samePK]⟩

/-- C3: uploading the same primary bytes twice in a row (no associated
files, same branch) returns the same `(asset_path, version_id)` both times,
and the metadata write of the second call is an upsert on the existing
primary key: the table keeps its size and holds exactly one active row for
`(asset_path, branch)`. -/
theorem c3_idempotent_upload (os0 : ObjStore) (db0 : DBState)
    (u br dat fn bp : String) (now1 now2 aTtl dTtl : Nat) (ap pfn : String)
    (hnames : computePrimaryNames bp fn = .ok (ap, pfn))
    (hnochange : ¬ osHead os0 br (ap ++ "/" ++ pfn) = some dat)
    (hold : ∀ r ∈ db0.commit_history, ¬(r.asset_path = ap ∧ r.branch = br)) :
    ∃ m1 m2,
      (uploadFiles os0 db0 u br dat fn bp [] now1 aTtl dTtl).2.2 = .ok m1 ∧
      (uploadFiles (uploadFiles os0 db0 u br dat fn bp [] now1 aTtl dTtl).1
        (uploadFiles os0 db0 u br dat fn bp [] now1 aTtl dTtl).2.1
        u br dat fn bp [] now2 aTtl dTtl).2.2 = .ok m2 ∧
      m1.asset_path = ap ∧ m2.asset_path = ap ∧
      m2.version_id = m1.version_id ∧ m2.checksum = m1.checksum ∧
      (((uploadFiles (uploadFiles os0 db0 u br dat fn bp [] now1 aTtl dTtl).1
          (uploadFiles os0 db0 u br dat fn bp [] now1 aTtl dTtl).2.1
          u br dat fn bp [] now2 aTtl dTtl).2.1.commit_history.filter
        (fun r => decide (r.asset_path = ap ∧ r.branch = br ∧
          r.status = "active"))).length = 1) ∧
      (uploadFiles (uploadFiles os0 db0 u br dat fn bp [] now1 aTtl dTtl).1
        (uploadFiles os0 db0 u br dat fn bp [] now1 aTtl dTtl).2.1
        u br dat fn bp [] now2 aTtl dTtl).2.1.commit_history.length =
      (uploadFiles os0 db0 u br dat fn bp [] now1 aTtl dTtl).2.1.commit_history.length := by
  have hnoPK : ∀ r ∈ db0.commit_history, ∀ X : AssetMetadata,
      X.asset_path = ap → X.branch = br → samePK r X = false := by
    intro r hr X hXa hXb
    unfold samePK
    rw [decide_eq_false_iff_not]
    intro hcon
    exact hold r hr ⟨hXa ▸ hcon.1, hXb ▸ hcon.2.2⟩
  have hcall1 : uploadFiles os0 db0 u br dat fn bp [] now1 aTtl dTtl =
      (deleteAssociatedFiles
        ⟨osSetHead os0.heads br (ap ++ "/" ++ pfn) dat, os0.nextCommit + 1⟩
        ap pfn br,
       ⟨saveMetadata db0.commit_history
          ⟨ap, os0.nextCommit, pfn, [], now1, now1 + aTtl, now1 + aTtl + dTtl,
           br, "active", dat,
           isPrimaryFileChanged db0.commit_history dat ap br⟩,
        logAccess db0.audit_log u ap (some os0.nextCommit) br ("upload") true
          ("") now1⟩,
       .ok ⟨ap, os0.nextCommit, pfn, [], now1, now1 + aTtl, now1 + aTtl + dTtl,
         br, "active", dat,
         isPrimaryFileChanged db0.commit_history dat ap br⟩) := by
    simp only [uploadFiles, hnames, osUpload, if_neg hnochange, runAssocTasks,
      keptOutcomes, List.filter_nil, validatePairs]
  have hsub : listHasSub pfn.data (ap ++ "/" ++ pfn).data = true := by
    rw [String.data_append]
    exact listHasSub_suffix pfn.data (ap ++ "/").data
  have hhead2 : osHead (deleteAssociatedFiles
      ⟨osSetHead os0.heads br (ap ++ "/" ++ pfn) dat, os0.nextCommit + 1⟩
      ap pfn br) br (ap ++ "/" ++ pfn) = some dat := by
    rw [osHead_deleteAssociatedFiles _ _ _ _ _ hsub]
    unfold osHead
    dsimp only
    rw [find?_osSetHead]
    rfl
  have hsave1 : saveMetadata db0.commit_history
      ⟨ap, os0.nextCommit, pfn, [], now1, now1 + aTtl, now1 + aTtl + dTtl,
       br, "active", dat, isPrimaryFileChanged db0.commit_history dat ap br⟩ =
      db0.commit_history ++
        [⟨ap, os0.nextCommit, pfn, [], now1, now1 + aTtl, now1 + aTtl + dTtl,
          br, "active", dat, {}⟩] := by
    rw [saveMetadata_append]
    intro r hr
    exact hnoPK r hr _ rfl rfl
  have hprior2 : getLatestActiveAsset (db0.commit_history ++
      [⟨ap, os0.nextCommit, pfn, [], now1, now1 + aTtl, now1 + aTtl + dTtl,
        br, "active", dat, {}⟩]) ap br =
      some ⟨ap, os0.nextCommit, pfn, [], now1, now1 + aTtl, now1 + aTtl + dTtl,
        br, "active", dat, {}⟩ :=
    getLatestActiveAsset_append db0.commit_history _ ap br hold ⟨rfl, rfl, rfl⟩
  have hcall2 : uploadFiles
      (deleteAssociatedFiles
        ⟨osSetHead os0.heads br (ap ++ "/" ++ pfn) dat, os0.nextCommit + 1⟩
        ap pfn br)
      ⟨saveMetadata db0.commit_history
         ⟨ap, os0.nextCommit, pfn, [], now1, now1 + aTtl, now1 + aTtl + dTtl,
          br, "active", dat,
          isPrimaryFileChanged db0.commit_history dat ap br⟩,
       logAccess db0.audit_log u ap (some os0.nextCommit) br ("upload") true
         ("") now1⟩
      u br dat fn bp [] now2 aTtl dTtl =
      (deleteAssociatedFiles
        ⟨osSetHead os0.heads br (ap ++ "/" ++ pfn) dat, os0.nextCommit + 1⟩
        ap pfn br,
       ⟨saveMetadata (db0.commit_history ++
          [⟨ap, os0.nextCommit, pfn, [], now1, now1 + aTtl,
            now1 + aTtl + dTtl, br, "active", dat, {}⟩])
          ⟨ap, os0.nextCommit, pfn, [], now1, now1 + aTtl, now1 + aTtl + dTtl,
           br, "active", dat,
           isPrimaryFileChanged (db0.commit_history ++
             [⟨ap, os0.nextCommit, pfn, [], now1, now1 + aTtl,
               now1 + aTtl + dTtl, br, "active", dat, {}⟩]) dat ap br⟩,
        logAccess (logAccess db0.audit_log u ap (some os0.nextCommit) br
          ("upload") true ("") now1) u ap (some os0.nextCommit) br ("upload")
          true ("") now2⟩,
       .ok ⟨ap, os0.nextCommit, pfn, [], now1, now1 + aTtl, now1 + aTtl + dTtl,
         br, "active", dat,
         isPrimaryFileChanged (db0.commit_history ++
           [⟨ap, os0.nextCommit, pfn, [], now1, now1 + aTtl,
             now1 + aTtl + dTtl, br, "active", dat, {}⟩]) dat ap br⟩) := by
    simp only [uploadFiles, hnames, osUpload]
    rw [if_pos hhead2]
    simp only [statusCodeOf, hsave1, hprior2, runAssocTasks, keptOutcomes,
      List.filter_nil, toPairsForDict]
    rfl
  have hsave2 : saveMetadata (db0.commit_history ++
      [⟨ap, os0.nextCommit, pfn, [], now1, now1 + aTtl, now1 + aTtl + dTtl,
        br, "active", dat, {}⟩])
      ⟨ap, os0.nextCommit, pfn, [], now1, now1 + aTtl, now1 + aTtl + dTtl,
       br, "active", dat,
       isPrimaryFileChanged (db0.commit_history ++
         [⟨ap, os0.nextCommit, pfn, [], now1, now1 + aTtl, now1 + aTtl + dTtl,
           br, "active", dat, {}⟩]) dat ap br⟩ =
      db0.commit_history ++
        [⟨ap, os0.nextCommit, pfn, [], now1, now1 + aTtl, now1 + aTtl + dTtl,
          br, "active", dat, {}⟩] := by
    apply saveMetadata_rewrite_self
    · exact List.mem_append_right _ (List.mem_singleton.mpr rfl)
    · intro r hr hpk
      rcases List.mem_append.mp hr with hr0 | hr1
      · rw [hnoPK r hr0 _ rfl rfl] at hpk
        exact absurd hpk (by simp)
      · exact List.mem_singleton.mp hr1
  refine ⟨⟨ap, os0.nextCommit, pfn, [], now1, now1 + aTtl, now1 + aTtl + dTtl,
      br, "active", dat, isPrimaryFileChanged db0.commit_history dat ap br⟩,
    ⟨ap, os0.nextCommit, pfn, [], now1, now1 + aTtl, now1 + aTtl + dTtl,
      br, "active", dat,
      isPrimaryFileChanged (db0.commit_history ++
        [⟨ap, os0.nextCommit, pfn, [], now1, now1 + aTtl, now1 + aTtl + dTtl,
          br, "active", dat, {}⟩]) dat ap br⟩,
    ?_, ?_, rfl, rfl, rfl, rfl, ?_, ?_⟩
  · rw [hcall1]
  · rw [hcall1]
    dsimp only
    rw [hcall2]
  · rw [hcall1]
    dsimp only
    rw [hcall2]
    dsimp only
    rw [hsave2, List.filter_append]
    rw [List.filter_eq_nil_iff.mpr (by
      intro r hr
      simp only [decide_eq_true_eq]
      exact fun hcon => hold r hr ⟨hcon.1, hcon.2.1⟩)]
    rw [List.nil_append, List.filter_cons_of_pos (by simp)]
    rfl
  · rw [hcall1]
    dsimp only
    rw [hcall2]
    dsimp only
    rw [hsave2, hsave1]

/-- C3 witness: a fresh store and empty table, uploading `"Hello"` as
`greeting.txt` twice. -/
theorem c3_witness :
    ∃ m1 m2,
      (uploadFiles emptyOS emptyDB "alice" "b" "Hello" "greeting.txt"
        "document" [] 10 30 30).2.2 = .ok m1 ∧
      (uploadFiles (uploadFiles emptyOS emptyDB "alice" "b" "Hello"
          "greeting.txt" "document" [] 10 30 30).1
        (uploadFiles emptyOS emptyDB "alice" "b" "Hello" "greeting.txt"
          "document" [] 10 30 30).2.1
        "alice" "b" "Hello" "greeting.txt" "document" [] 11 30 30).2.2 =
        .ok m2 ∧
      m1.asset_path = "document/greeting" ∧
      m2.asset_path = "document/greeting" ∧
      m2.version_id = m1.version_id ∧ m2.checksum = m1.checksum ∧
      (((uploadFiles (uploadFiles emptyOS emptyDB "alice" "b" "Hello"
            "greeting.txt" "document" [] 10 30 30).1
          (uploadFiles emptyOS emptyDB "alice" "b" "Hello" "greeting.txt"
            "document" [] 10 30 30).2.1
          "alice" "b" "Hello" "greeting.txt" "document" []
          11 30 30).2.1.commit_history.filter
        (fun r => decide (r.asset_path = "document/greeting" ∧ r.branch = "b" ∧
          r.status = "active"))).length = 1) ∧
      (uploadFiles (uploadFiles emptyOS emptyDB "alice" "b" "Hello"
          "greeting.txt" "document" [] 10 30 30).1
        (uploadFiles emptyOS emptyDB "alice" "b" "Hello" "greeting.txt"
          "document" [] 10 30 30).2.1
        "alice" "b" "Hello" "greeting.txt" "document"
        [] 11 30 30).2.1.commit_history.length =
      (uploadFiles emptyOS emptyDB "alice" "b" "Hello" "greeting.txt"
        "document" [] 10 30 30).2.1.commit_history.length :=
  c3_idempotent_upload emptyOS emptyDB "alice" "b" "Hello" "greeting.txt"
    "document" 10 11 30 30 "document/greeting" "greeting.txt" rfl (by decide)
    (by intro r hr; exact absurd hr (List.not_mem_nil r))

/-! ## C2 — the lifecycle only moves forward -/

/-- The primary-key test, propositionally. -/
theorem samePK_iff (a b : AssetMetadata) :
    samePK a b = true ↔
      (a.asset_path = b.asset_path ∧ a.version_id = b.version_id ∧
        a.branch = b.branch) := by
  unfold samePK
  exact decide_eq_true_iff

/-- The primary-key test is reflexive. -/
theorem samePK_refl (a : AssetMetadata) : samePK a a = true := by
  simp [samePK]

/-- The primary-key test is symmetric. -/
theorem samePK_symm (a b : AssetMetadata) : samePK a b = samePK b a := by
  unfold samePK
  by_cases h : a.asset_path = b.asset_path ∧ a.version_id = b.version_id ∧
      a.branch = b.branch
  · rw [decide_eq_true h,
      decide_eq_true ⟨h.1.symm, h.2.1.symm, h.2.2.symm⟩]
  · rw [decide_eq_false h,
      decide_eq_false (fun hc => h ⟨hc.1.symm, hc.2.1.symm, hc.2.2.symm⟩)]

/-- The primary-key test is transitive. -/
theorem samePK_trans {a b c : AssetMetadata} (h1 : samePK a b = true)
    (h2 : samePK b c = true) : samePK a c = true := by
  rw [samePK_iff] at h1 h2 ⊢
  exact ⟨h1.1.trans h2.1, h1.2.1.trans h2.2.1, h1.2.2.trans h2.2.2⟩

/-- In a table respecting its primary key, two rows with the same key are
the same row. -/
theorem wf_eq_of_samePK {ch : List AssetMetadata} (hwf : WFch ch)
    {a b : AssetMetadata} (ha : a ∈ ch) (hb : b ∈ ch)
    (hab : samePK a b = true) : a = b := by
  induction ch with
  | nil => cases ha
  | cons e t ih =>
    rw [WFch, List.pairwise_cons] at hwf
    rcases List.mem_cons.mp ha with rfl | ha2
    · rcases List.mem_cons.mp hb with rfl | hb2
      · rfl
      · rw [hwf.1 b hb2] at hab
        exact absurd hab (by simp)
    · rcases List.mem_cons.mp hb with rfl | hb2
      · rw [samePK_symm] at hab
        rw [hwf.1 a ha2] at hab
        exact absurd hab (by simp)
      · exact ih hwf.2 ha2 hb2

/-- `statusForward` is reflexive on a well-keyed table. -/
theorem statusForward_refl {ch : List AssetMetadata} (hwf : WFch ch) :
    statusForward ch ch := by
  intro r2 hr2 r hr hpk
  rw [wf_eq_of_samePK hwf hr hr2 hpk]

/-- `descendsForward` is reflexive. -/
theorem descendsForward_refl (ch : List AssetMetadata) :
    descendsForward ch ch :=
  fun r2 hr2 => ⟨r2, hr2, samePK_refl r2, le_refl _⟩

/-- `descendsForward` composes. -/
theorem descendsForward_trans {a b c : List AssetMetadata}
    (h1 : descendsForward a b) (h2 : descendsForward b c) :
    descendsForward a c := by
  intro r3 hr3
  obtain ⟨r2, hr2, hpk2, hle2⟩ := h2 r3 hr3
  obtain ⟨r1, hr1, hpk1, hle1⟩ := h1 r2 hr2
  exact ⟨r1, hr1, samePK_trans hpk1 hpk2, le_trans hle1 hle2⟩

/-- Against a well-keyed source, descent implies the forward property. -/
theorem statusForward_of_descends {a b : List AssetMetadata} (hwf : WFch a)
    (h : descendsForward a b) : statusForward a b := by
  intro r2 hr2 r hr hpk
  obtain ⟨r0, hr0, hpk0, hle⟩ := h r2 hr2
  rw [wf_eq_of_samePK hwf hr hr0
    (samePK_trans hpk (samePK_symm r0 r2 ▸ hpk0))]
  exact hle

/-- A status update keyed on the row itself keeps the primary key. -/
theorem samePK_status_update_right (a b : AssetMetadata) (st : String) :
    samePK a { b with status := st } = samePK a b := rfl

/-- Facts about a map that re-stamps selected rows `archived`: the table
moves forward, descends, stays well-keyed and keeps no `destroyed` row. -/
theorem map_archive_facts (ch : List AssetMetadata)
    (p : AssetMetadata → Bool) (hwf : WFch ch) (hnd : NoDestroyed ch) :
    descendsForward ch (ch.map (fun r =>
      if p r = true then { r with status := "archived" } else r)) ∧
    WFch (ch.map (fun r =>
      if p r = true then { r with status := "archived" } else r)) ∧
    NoDestroyed (ch.map (fun r =>
      if p r = true then { r with status := "archived" } else r)) := by
  refine ⟨?_, ?_, ?_⟩
  · intro r2 hr2
    obtain ⟨r0, hr0, rfl⟩ := List.mem_map.mp hr2
    by_cases hc : p r0 = true
    · rw [if_pos hc]
      exact ⟨r0, hr0, by rw [samePK_status_update_right]; exact samePK_refl r0,
        hnd r0 hr0⟩
    · rw [if_neg hc]
      exact ⟨r0, hr0, samePK_refl r0, le_refl _⟩
  · refine List.Pairwise.map _ (fun a b hab => ?_) hwf
    by_cases ha : p a = true <;> by_cases hb : p b = true <;>
      simp only [if_pos, if_neg, ha, hb, if_true, if_false] <;> exact hab
  · intro r2 hr2
    obtain ⟨r0, hr0, rfl⟩ := List.mem_map.mp hr2
    by_cases hc : p r0 = true
    · rw [if_pos hc]
      exact le_refl _
    · rw [if_neg hc]
      exact hnd r0 hr0

/-- Facts about a filter: removal moves the table forward, keeps keys
well-formed and introduces no `destroyed` row. -/
theorem filter_facts (ch : List AssetMetadata) (q : AssetMetadata → Bool)
    (hwf : WFch ch) (hnd : NoDestroyed ch) :
    descendsForward ch (ch.filter q) ∧ WFch (ch.filter q) ∧
    NoDestroyed (ch.filter q) := by
  refine ⟨?_, ?_, ?_⟩
  · intro r2 hr2
    exact ⟨r2, List.mem_of_mem_filter hr2, samePK_refl r2, le_refl _⟩
  · exact List.Pairwise.sublist (List.filter_sublist ch) hwf
  · intro r2 hr2
    exact hnd r2 (List.mem_of_mem_filter hr2)

/-- `update_status` to `archived` moves the table forward and preserves the
table invariants, for both SQL branches. -/
theorem updateStatus_archived_facts (ch : List AssetMetadata) (ap : String)
    (vid : Nat) (br : String) (hwf : WFch ch) (hnd : NoDestroyed ch) :
    descendsForward ch (updateStatusDb ch ap vid "archived" br) ∧
    WFch (updateStatusDb ch ap vid "archived" br) ∧
    NoDestroyed (updateStatusDb ch ap vid "archived" br) := by
  unfold updateStatusDb
  split
  · exact map_archive_facts ch _ hwf hnd
  · exact map_archive_facts ch _ hwf hnd

/-- Row deletion moves the table forward and preserves the invariants, for
both SQL branches. -/
theorem deleteRows_facts (ch : List AssetMetadata) (ap : String) (vid : Nat)
    (br : String) (hwf : WFch ch) (hnd : NoDestroyed ch) :
    descendsForward ch (deleteMetadataRows ch ap vid br) ∧
    WFch (deleteMetadataRows ch ap vid br) ∧
    NoDestroyed (deleteMetadataRows ch ap vid br) := by
  unfold deleteMetadataRows
  split
  · exact filter_facts ch _ hwf hnd
  · exact filter_facts ch _ hwf hnd

/-- One `archive` call only moves the table forward and preserves the
invariants, whatever its outcome. -/
theorem archiveOp_facts (db : DBState) (pts : List Point)
    (u br apRaw : String) (vid now : Nat) (hwf : WFch db.commit_history)
    (hnd : NoDestroyed db.commit_history) :
    descendsForward db.commit_history
      (archiveOp db pts u br apRaw vid now).1.commit_history ∧
    WFch (archiveOp db pts u br apRaw vid now).1.commit_history ∧
    NoDestroyed (archiveOp db pts u br apRaw vid now).1.commit_history := by
  rcases hsan : sanitizePath apRaw with e | ap
  · simp only [archiveOp, hsan]
    exact ⟨descendsForward_refl _, hwf, hnd⟩
  · rcases hget : getAssetByPathAndVersion db.commit_history ap vid br with
      _ | m
    · simp only [archiveOp, hsan, hget]
      exact ⟨descendsForward_refl _, hwf, hnd⟩
    · by_cases hst : m.status ≠ "active"
      · simp only [archiveOp, hsan, hget, if_pos hst]
        exact ⟨descendsForward_refl _, hwf, hnd⟩
      · simp only [archiveOp, hsan, hget, if_neg hst]
        exact updateStatus_archived_facts db.commit_history ap vid br hwf hnd

/-- One `destroy` call only removes rows and preserves the invariants. -/
theorem destroyOp_facts (os : ObjStore) (db : DBState) (pts : List Point)
    (u br apRaw : String) (vid now : Nat) (hwf : WFch db.commit_history)
    (hnd : NoDestroyed db.commit_history) :
    descendsForward db.commit_history
      (destroyOp os db pts u br apRaw vid now).2.1.commit_history ∧
    WFch (destroyOp os db pts u br apRaw vid now).2.1.commit_history ∧
    NoDestroyed (destroyOp os db pts u br apRaw vid now).2.1.commit_history := by
  rcases hsan : sanitizePath apRaw with e | ap
  · simp only [destroyOp, hsan]
    exact ⟨descendsForward_refl _, hwf, hnd⟩
  · rcases hget : getAssetByPathAndVersion db.commit_history ap vid br with
      _ | m
    · simp only [destroyOp, hsan, hget]
      exact ⟨descendsForward_refl _, hwf, hnd⟩
    · by_cases hst : m.status ≠ "archived"
      · simp only [destroyOp, hsan, hget, if_pos hst]
        exact ⟨descendsForward_refl _, hwf, hnd⟩
      · simp only [destroyOp, hsan, hget, if_neg hst, deleteMetadataDb]
        exact deleteRows_facts db.commit_history ap vid br hwf hnd

/-- The whole `auto_archive` fold only moves the table forward. -/
theorem foldArchive_facts (currentDate : Nat) :
    ∀ (assets : List AssetMetadata)
      (acc : DBState × List Point × List AssetMetadata × Bool),
      WFch acc.1.commit_history → NoDestroyed acc.1.commit_history →
      descendsForward acc.1.commit_history
        (assets.foldl (autoArchiveStep currentDate) acc).1.commit_history ∧
      WFch (assets.foldl (autoArchiveStep currentDate) acc).1.commit_history ∧
      NoDestroyed
        (assets.foldl (autoArchiveStep currentDate) acc).1.commit_history := by
  intro assets
  induction assets with
  | nil =>
    intro acc hwf hnd
    exact ⟨descendsForward_refl _, hwf, hnd⟩
  | cons a rest ih =>
    intro acc hwf hnd
    rw [List.foldl_cons]
    have hstep : descendsForward acc.1.commit_history
        (autoArchiveStep currentDate acc a).1.commit_history ∧
        WFch (autoArchiveStep currentDate acc a).1.commit_history ∧
        NoDestroyed (autoArchiveStep currentDate acc a).1.commit_history := by
      unfold autoArchiveStep
      by_cases hh : acc.2.2.2 = true
      · rw [if_pos hh]
        exact ⟨descendsForward_refl _, hwf, hnd⟩
      · rw [if_neg hh]
        obtain ⟨h1, h2, h3⟩ := archiveOp_facts acc.1 acc.2.1 ("admin")
          a.branch a.asset_path a.version_id currentDate hwf hnd
        cases hres : (archiveOp acc.1 acc.2.1 ("admin") a.branch a.asset_path
            a.version_id currentDate).2.2 with
        | ok m =>
          simp only [hres]
          exact ⟨h1, h2, h3⟩
        | raised e =>
          simp only [hres]
          exact ⟨h1, h2, h3⟩
        | hangs =>
          simp only [hres]
          exact ⟨h1, h2, h3⟩
    obtain ⟨hs1, hs2, hs3⟩ := hstep
    obtain ⟨hr1, hr2, hr3⟩ := ih (autoArchiveStep currentDate acc a) hs2 hs3
    exact ⟨descendsForward_trans hs1 hr1, hr2, hr3⟩

/-- The whole `auto_destroy` fold only moves the table forward. -/
theorem foldDestroy_facts (currentDate : Nat) :
    ∀ (assets : List AssetMetadata)
      (acc : ObjStore × DBState × List Point × List AssetMetadata),
      WFch acc.2.1.commit_history → NoDestroyed acc.2.1.commit_history →
      descendsForward acc.2.1.commit_history
        (assets.foldl (autoDestroyStep currentDate) acc).2.1.commit_history ∧
      WFch (assets.foldl (autoDestroyStep currentDate) acc).2.1.commit_history ∧
      NoDestroyed
        (assets.foldl (autoDestroyStep currentDate) acc).2.1.commit_history := by
  intro assets
  induction assets with
  | nil =>
    intro acc hwf hnd
    exact ⟨descendsForward_refl _, hwf, hnd⟩
  | cons a rest ih =>
    intro acc hwf hnd
    rw [List.foldl_cons]
    have hstep : descendsForward acc.2.1.commit_history
        (autoDestroyStep currentDate acc a).2.1.commit_history ∧
        WFch (autoDestroyStep currentDate acc a).2.1.commit_history ∧
        NoDestroyed (autoDestroyStep currentDate acc a).2.1.commit_history := by
      unfold autoDestroyStep
      obtain ⟨h1, h2, h3⟩ := destroyOp_facts acc.1 acc.2.1 acc.2.2.1 ("admin")
        a.branch a.asset_path a.version_id currentDate hwf hnd
      cases hres : (destroyOp acc.1 acc.2.1 acc.2.2.1 ("admin") a.branch
          a.asset_path a.version_id currentDate).2.2.2 with
      | ok m =>
        simp only [hres]
        exact ⟨h1, h2, h3⟩
      | raised e =>
        simp only [hres]
        exact ⟨h1, h2, h3⟩
      | hangs =>
        simp only [hres]
        exact ⟨h1, h2, h3⟩
    obtain ⟨hs1, hs2, hs3⟩ := hstep
    obtain ⟨hr1, hr2, hr3⟩ := ih (autoDestroyStep currentDate acc a) hs2 hs3
    exact ⟨descendsForward_trans hs1 hr1, hr2, hr3⟩

/-- A successful object-store upload hands out the current commit
counter. -/
theorem osUpload_ok_inv (os : ObjStore) (data key br : String)
    (os1 : ObjStore) (vid : Nat) (chk : String)
    (h : osUpload os data key br = (os1, .ok (vid, chk))) :
    vid = os.nextCommit := by
  by_cases hc : osHead os br key = some data
  · rw [osUpload, if_pos hc] at h
    simp at h
  · rw [osUpload, if_neg hc] at h
    simp only [Prod.mk.injEq, Except.ok.injEq] at h
    exact h.2.1.symm

/-- The maximum-upload-date fold yields an element of the list (or its
seed). -/
theorem foldLatest_mem (l : List AssetMetadata) :
    ∀ (acc : Option AssetMetadata) (m : AssetMetadata),
      List.foldl (fun acc r =>
        match acc with
        | none => some r
        | some b => if b.upload_date < r.upload_date then some r else acc)
        acc l = some m →
      acc = some m ∨ m ∈ l := by
  induction l with
  | nil =>
    intro acc m h
    exact Or.inl h
  | cons e t ih =>
    intro acc m h
    rw [List.foldl_cons] at h
    rcases ih _ m h with hacc | hmem
    · cases acc with
      | none =>
        simp only [Option.some.injEq] at hacc
        exact Or.inr (hacc ▸ List.mem_cons_self e t)
      | some b =>
        dsimp only at hacc
        by_cases hlt : b.upload_date < e.upload_date
        · rw [if_pos hlt] at hacc
          simp only [Option.some.injEq] at hacc
          exact Or.inr (hacc ▸ List.mem_cons_self e t)
        · rw [if_neg hlt] at hacc
          exact Or.inl hacc
    · exact Or.inr (List.mem_cons_of_mem e hmem)

/-- What `get_latest_active_asset` returns: a member row, active, on the
requested path and branch. -/
theorem getLatestActiveAsset_inv (ch : List AssetMetadata) (ap br : String)
    (m : AssetMetadata) (h : getLatestActiveAsset ch ap br = some m) :
    m ∈ ch ∧ m.asset_path = ap ∧ m.status = "active" ∧ m.branch = br := by
  unfold getLatestActiveAsset pickLatest at h
  rcases foldLatest_mem _ _ _ h with hacc | hmem
  · exact absurd hacc (by simp)
  · have hm := List.mem_filter.mp hmem
    have hp := of_decide_eq_true hm.2
    exact ⟨hm.1, hp.1, hp.2.1, hp.2.2⟩

/-- The database states `upload_files` can leave behind: unchanged, an
upsert of a brand-new active row carrying the fresh commit id, or an upsert
keyed on the prior active row with the prior's status. -/
theorem uploadFiles_db_shape (os : ObjStore) (db : DBState)
    (u br dat fn bp : String) (assoc : List (String × String))
    (now aTtl dTtl : Nat) :
    (uploadFiles os db u br dat fn bp assoc now aTtl dTtl).2.1.commit_history =
      db.commit_history ∨
    (∃ m : AssetMetadata, m.version_id = os.nextCommit ∧ m.status = "active" ∧
      (uploadFiles os db u br dat fn bp assoc now aTtl
        dTtl).2.1.commit_history = saveMetadata db.commit_history m) ∨
    (∃ prior m : AssetMetadata, prior ∈ db.commit_history ∧
      prior.status = "active" ∧ samePK m prior = true ∧
      m.status = prior.status ∧
      (uploadFiles os db u br dat fn bp assoc now aTtl
        dTtl).2.1.commit_history = saveMetadata db.commit_history m) := by
  rcases hnames : computePrimaryNames bp fn with e | ⟨ap, pfn⟩
  · left
    simp only [uploadFiles, hnames]
  · cases hup : osUpload os dat (ap ++ "/" ++ pfn) br with
    | mk os1 res =>
      cases res with
      | ok p =>
        obtain ⟨vid, chk⟩ := p
        have hvid : vid = os.nextCommit :=
          osUpload_ok_inv os dat _ br os1 vid chk hup
        rcases hval : validatePairs (keptOutcomes (runAssocTasks
            db.commit_history ap br (deleteAssociatedFiles os1 ap pfn br)
            assoc).2) with e2 | pairs
        · left
          simp only [uploadFiles, hnames, hup, hval]
        · right
          left
          refine ⟨⟨ap, vid, pfn, pairs, now, now + aTtl, now + aTtl + dTtl,
            br, "active", chk,
            isPrimaryFileChanged db.commit_history chk ap br⟩, hvid, rfl, ?_⟩
          simp only [uploadFiles, hnames, hup, hval]
      | error e =>
        obtain ⟨he, _⟩ := osUpload_error_inv os dat _ br os1 e hup
        subst he
        rcases hga : getLatestActiveAsset db.commit_history ap br with
          _ | prior
        · left
          simp only [uploadFiles, hnames, hup, statusCodeOf, hga]
        · obtain ⟨hpmem, _, hpst, _⟩ :=
            getLatestActiveAsset_inv _ _ _ _ hga
          rcases hpd : toPairsForDict (keptOutcomes (runAssocTasks
              db.commit_history ap br os1 assoc).2) with e2 | newPairs
          · left
            simp only [uploadFiles, hnames, hup, statusCodeOf, hga, hpd]
          · right
            right
            refine ⟨prior,
              { prior with
                associated_filenames :=
                  dictUpdate prior.associated_filenames newPairs,
                change_status := isPrimaryFileChanged db.commit_history
                  prior.checksum ap br },
              hpmem, hpst, by simp [samePK], rfl, ?_⟩
            simp only [uploadFiles, hnames, hup, statusCodeOf, hga, hpd]

/-- Re-writing an existing key with a record of the same status keeps the
whole table's statuses. -/
theorem statusForward_saveMetadata_existing (ch : List AssetMetadata)
    (prior m : AssetMetadata) (hwf : WFch ch) (hpmem : prior ∈ ch)
    (hpk : samePK m prior = true) (hmst : m.status = prior.status) :
    statusForward ch (saveMetadata ch m) := by
  unfold saveMetadata
  have hpk2 : samePK prior { m with change_status := {} } = true := by
    rw [samePK_iff]
    have h0 := (samePK_iff m prior).mp hpk
    exact ⟨h0.1.symm, h0.2.1.symm, h0.2.2.symm⟩
  rw [if_pos (List.any_eq_true.mpr ⟨prior, hpmem, hpk2⟩)]
  intro r2 hr2 r hr hpk3
  obtain ⟨r0, hr0, rfl⟩ := List.mem_map.mp hr2
  by_cases hc : samePK r0 { m with change_status := {} } = true
  · rw [if_pos hc] at hpk3 ⊢
    have hrp : samePK r prior = true :=
      samePK_trans hpk3
        (samePK_symm prior { m with change_status := {} } ▸ hpk2)
    rw [wf_eq_of_samePK hwf hr hpmem hrp]
    rw [show ({ m with change_status := {} } : AssetMetadata).status =
      prior.status from hmst]
  · rw [if_neg hc] at hpk3 ⊢
    rw [wf_eq_of_samePK hwf hr hr0 hpk3]

/-- `upload_files` never moves a surviving row's status backwards: new rows
carry a fresh key, and the NoChange upsert re-writes the active prior row
with its own (active) status. -/
theorem uploadFiles_statusForward (os : ObjStore) (db : DBState)
    (u br dat fn bp : String) (assoc : List (String × String))
    (now aTtl dTtl : Nat) (hwf : WFch db.commit_history)
    (hfresh : FreshIds os db.commit_history) :
    statusForward db.commit_history
      (uploadFiles os db u br dat fn bp assoc now aTtl
        dTtl).2.1.commit_history := by
  rcases uploadFiles_db_shape os db u br dat fn bp assoc now aTtl dTtl with
    heq | ⟨m, hvid, _, heq⟩ | ⟨prior, m, hpmem, hpst, hpk, hmst, heq⟩
  · rw [heq]
    exact statusForward_refl hwf
  · rw [heq]
    unfold saveMetadata
    have hany : (db.commit_history.any
        (fun r => samePK r { m with change_status := {} })) = false := by
      rw [List.any_eq_false]
      intro r hr
      simp only [Bool.not_eq_true]
      unfold samePK
      rw [decide_eq_false_iff_not]
      intro hcon
      have hlt := hfresh r hr
      have hvv : r.version_id = m.version_id := hcon.2.1
      rw [hvv, hvid] at hlt
      exact lt_irrefl _ hlt
    rw [if_neg (by rw [hany]; exact Bool.false_ne_true)]
    intro r2 hr2 r hr hpk2
    rcases List.mem_append.mp hr2 with h1 | h2
    · rw [wf_eq_of_samePK hwf hr h1 hpk2]
    · exfalso
      have hr2eq : r2 = { m with change_status := {} } :=
        List.mem_singleton.mp h2
      have hcon := (samePK_iff _ _).mp (hr2eq ▸ hpk2)
      have hlt := hfresh r hr
      have hvv : r.version_id = m.version_id := hcon.2.1
      rw [hvv, hvid] at hlt
      exact lt_irrefl _ hlt
  · rw [heq]
    exact statusForward_saveMetadata_existing db.commit_history prior m hwf
      hpmem hpk hmst

/-- The database states `add_associated_files` can leave behind: unchanged,
or an upsert keyed on the active target row with the target's status. -/
theorem addAssoc_db_shape (os : ObjStore) (db : DBState)
    (u br apRaw : String) (files : List (String × String))
    (tv : Option Nat) (now : Nat) :
    (addAssociatedFiles os db u br apRaw files tv
      now).2.1.commit_history = db.commit_history ∨
    ∃ m m2 : AssetMetadata, m ∈ db.commit_history ∧ m.status = "active" ∧
      samePK m2 m = true ∧ m2.status = m.status ∧
      (addAssociatedFiles os db u br apRaw files tv
        now).2.1.commit_history = saveMetadata db.commit_history m2 := by
  by_cases hfe : files.isEmpty = true
  · left
    simp only [addAssociatedFiles, if_pos hfe]
  · rcases hsan : sanitizePath apRaw with e | ap
    · left
      simp only [addAssociatedFiles, if_neg hfe, hsan]
    · rcases tv with _ | v
      · rcases hget : getLatestActiveAsset db.commit_history ap br with _ | m
        · left
          simp only [addAssociatedFiles, if_neg hfe, hsan, hget]
        · have hmem := (getLatestActiveAsset_inv _ _ _ _ hget).1
          by_cases hst : m.status ≠ "active"
          · left
            simp only [addAssociatedFiles, if_neg hfe, hsan, hget, if_pos hst]
          · rcases hfx : firstExn (runAssocTasks db.commit_history ap br os
                files).2 with _ | e2
            · by_cases hke : (keptOutcomes (runAssocTasks db.commit_history
                  ap br os files).2).isEmpty = true
              · left
                simp only [addAssociatedFiles, if_neg hfe, hsan, hget,
                  if_neg hst, hfx, if_pos hke]
              · rcases hpd : toPairsForDict (keptOutcomes (runAssocTasks
                    db.commit_history ap br os files).2) with e3 | newPairs
                · left
                  simp only [addAssociatedFiles, if_neg hfe, hsan, hget,
                    if_neg hst, hfx, if_neg hke, hpd]
                · right
                  refine ⟨m, { m with associated_filenames := dictUpdate m.associated_filenames newPairs }, hmem, not_not.mp hst, by simp [samePK], rfl, ?_⟩
                  simp only [addAssociatedFiles, if_neg hfe, hsan, hget,
                    if_neg hst, hfx, if_neg hke, hpd]
            · left
              simp only [addAssociatedFiles, if_neg hfe, hsan, hget,
                if_neg hst, hfx]
      · rcases hget : getAssetByPathAndVersion db.commit_history ap v br with
          _ | m
        · left
          simp only [addAssociatedFiles, if_neg hfe, hsan, hget]
        · have hmem : m ∈ db.commit_history := List.mem_of_find?_eq_some hget
          by_cases hst : m.status ≠ "active"
          · left
            simp only [addAssociatedFiles, if_neg hfe, hsan, hget, if_pos hst]
          · rcases hfx : firstExn (runAssocTasks db.commit_history ap br os
                files).2 with _ | e2
            · by_cases hke : (keptOutcomes (runAssocTasks db.commit_history
                  ap br os files).2).isEmpty = true
              · left
                simp only [addAssociatedFiles, if_neg hfe, hsan, hget,
                  if_neg hst, hfx, if_pos hke]
              · rcases hpd : toPairsForDict (keptOutcomes (runAssocTasks
                    db.commit_history ap br os files).2) with e3 | newPairs
                · left
                  simp only [addAssociatedFiles, if_neg hfe, hsan, hget,
                    if_neg hst, hfx, if_neg hke, hpd]
                · right
                  refine ⟨m, { m with associated_filenames := dictUpdate m.associated_filenames newPairs }, hmem, not_not.mp hst, by simp [samePK], rfl, ?_⟩
                  simp only [addAssociatedFiles, if_neg hfe, hsan, hget,
                    if_neg hst, hfx, if_neg hke, hpd]
            · left
              simp only [addAssociatedFiles, if_neg hfe, hsan, hget,
                if_neg hst, hfx]

/-- `add_associated_files` never moves a surviving row's status backwards. -/
theorem addAssoc_statusForward (os : ObjStore) (db : DBState)
    (u br apRaw : String) (files : List (String × String)) (tv : Option Nat)
    (now : Nat) (hwf : WFch db.commit_history) :
    statusForward db.commit_history
      (addAssociatedFiles os db u br apRaw files tv
        now).2.1.commit_history := by
  rcases addAssoc_db_shape os db u br apRaw files tv now with
    heq | ⟨m, m2, hmem, _, hpk, hmst, heq⟩
  · rw [heq]
    exact statusForward_refl hwf
  · rw [heq]
    exact statusForward_saveMetadata_existing db.commit_history m m2 hwf hmem
      hpk hmst

/-- After `update_status`, the three-key lookup sees the row with the new
status (and finds it at the same position). -/
theorem getAsset_after_update (ch : List AssetMetadata) (ap : String)
    (vid : Nat) (br st : String) :
    getAssetByPathAndVersion (updateStatusDb ch ap vid st br) ap vid br =
      (getAssetByPathAndVersion ch ap vid br).map
        (fun m => { m with status := st }) := by
  unfold updateStatusDb getAssetByPathAndVersion
  split
  · induction ch with
    | nil => rfl
    | cons e t ih =>
      rw [List.map_cons]
      by_cases hp : (e.asset_path = ap ∧ e.version_id = vid ∧ e.branch = br)
      · rw [if_pos (decide_eq_true hp)]
        rw [find?_cons_eq, find?_cons_eq]
        rw [if_pos (by exact decide_eq_true hp), if_pos (decide_eq_true hp)]
        rfl
      · rw [if_neg (by rw [decide_eq_true_eq]; exact hp)]
        rw [find?_cons_eq, find?_cons_eq]
        rw [if_neg (by rw [decide_eq_true_eq]; exact hp),
          if_neg (by rw [decide_eq_true_eq]; exact hp)]
        exact ih
  · induction ch with
    | nil => rfl
    | cons e t ih =>
      rw [List.map_cons]
      by_cases hq : (e.asset_path = ap ∧ e.version_id = vid)
      · rw [if_pos (decide_eq_true hq)]
        rw [find?_cons_eq, find?_cons_eq]
        by_cases hp : (e.asset_path = ap ∧ e.version_id = vid ∧
            e.branch = br)
        · rw [if_pos (by exact decide_eq_true hp),
            if_pos (decide_eq_true hp)]
          rfl
        · rw [if_neg (by exact fun hcon => hp (of_decide_eq_true hcon)),
            if_neg (by rw [decide_eq_true_eq]; exact hp)]
          exact ih
      · have hp : ¬(e.asset_path = ap ∧ e.version_id = vid ∧
            e.branch = br) := fun hcon => hq ⟨hcon.1, hcon.2.1⟩
        rw [if_neg (by rw [decide_eq_true_eq]; exact hq)]
        rw [find?_cons_eq, find?_cons_eq]
        rw [if_neg (by rw [decide_eq_true_eq]; exact hp),
          if_neg (by rw [decide_eq_true_eq]; exact hp)]
        exact ih

/-! ## C2 — status moves only forward -/

/-- C2: status only moves forward along active → archived → destroyed.  On a
well-keyed table with fresh commit ids and no persisted `destroyed` row,
(i) every coordinator operation leaves each surviving row's status at the
same rank or later; (ii) `archive` on a found row that is not `active`
raises HTTP 400 and leaves `commit_history` unchanged, while on an `active`
row it returns the row stamped `archived`; (iii) `destroy` on a found row
that is not `archived` raises HTTP 400 and leaves `commit_history`
unchanged, while on an `archived` row it returns the row stamped
`destroyed`. -/
theorem c2_status_monotone (os : ObjStore) (db : DBState) (pts : List Point)
    (now : Nat) (hwf : WFch db.commit_history)
    (hfresh : FreshIds os db.commit_history)
    (hnd : NoDestroyed db.commit_history) :
    (∀ op : CoordOp,
      statusForward db.commit_history
        (applyCoordOp os db pts now op).2.1.commit_history) ∧
    (∀ (u br apRaw ap : String) (vid : Nat) (m : AssetMetadata),
      sanitizePath apRaw = .ok ap →
      getAssetByPathAndVersion db.commit_history ap vid br = some m →
      (m.status ≠ "active" →
        (archiveOp db pts u br apRaw vid now).1.commit_history =
          db.commit_history ∧
        (archiveOp db pts u br apRaw vid now).2.2 =
          .raised (.httpExc 400 ("Asset " ++ ap ++ "/" ++ toString vid ++
            " is already " ++ m.status))) ∧
      (m.status = "active" →
        (archiveOp db pts u br apRaw vid now).2.2 =
          .ok { m with status := "archived" })) ∧
    (∀ (u br apRaw ap : String) (vid : Nat) (m : AssetMetadata),
      sanitizePath apRaw = .ok ap →
      getAssetByPathAndVersion db.commit_history ap vid br = some m →
      (m.status ≠ "archived" →
        (destroyOp os db pts u br apRaw vid now).2.1.commit_history =
          db.commit_history ∧
        (destroyOp os db pts u br apRaw vid now).2.2.2 =
          .raised (.httpExc 400 ("Asset " ++ ap ++ "/" ++ toString vid ++
            " is not archived"))) ∧
      (m.status = "archived" →
        (destroyOp os db pts u br apRaw vid now).2.2.2 =
          .ok { m with status := "destroyed" })) := by
  refine ⟨?_, ?_, ?_⟩
  · intro op
    cases op with
    | upload u br dat fn bp assoc aTtl dTtl =>
      simp only [applyCoordOp]
      exact uploadFiles_statusForward os db u br dat fn bp assoc now aTtl
        dTtl hwf hfresh
    | addAssoc u br apRaw files tv =>
      simp only [applyCoordOp]
      exact addAssoc_statusForward os db u br apRaw files tv now hwf
    | archive u br apRaw vid =>
      simp only [applyCoordOp]
      exact statusForward_of_descends hwf
        (archiveOp_facts db pts u br apRaw vid now hwf hnd).1
    | destroy u br apRaw vid =>
      simp only [applyCoordOp]
      exact statusForward_of_descends hwf
        (destroyOp_facts os db pts u br apRaw vid now hwf hnd).1
    | autoArch cd =>
      simp only [applyCoordOp, autoArchive]
      exact statusForward_of_descends hwf
        (foldArchive_facts cd (getAssetsToArchive db.commit_history cd)
          (db, pts, [], false) hwf hnd).1
    | autoDest cd =>
      simp only [applyCoordOp, autoDestroy]
      exact statusForward_of_descends hwf
        (foldDestroy_facts cd (getAssetsToDestroy db.commit_history cd)
          (os, { db with audit_log := cleanupOldLogs db.audit_log cd 120 },
            pts, []) hwf hnd).1
  · intro u br apRaw ap vid m hsan hget
    refine ⟨?_, ?_⟩
    · intro hst
      simp only [archiveOp, hsan, hget, if_pos hst]
      exact ⟨trivial, trivial⟩
    · intro hst
      have hne : ¬ m.status ≠ "active" := fun h => h hst
      simp only [archiveOp, hsan, hget, if_neg hne]
      have hupd := getAsset_after_update db.commit_history ap vid br
        ("archived")
      simp [pollArchive, hupd, hget]
  · intro u br apRaw ap vid m hsan hget
    refine ⟨?_, ?_⟩
    · intro hst
      simp only [destroyOp, hsan, hget, if_pos hst]
      exact ⟨trivial, trivial⟩
    · intro hst
      have hne : ¬ m.status ≠ "archived" := fun h => h hst
      simp only [destroyOp, hsan, hget, if_neg hne]

/-- Row for the C2 witness: one active asset. -/
def c2row : AssetMetadata :=
  { asset_path := "document/greeting", version_id := 2,
    primary_filename := "greeting.txt", associated_filenames := [],
    upload_date := 5, archive_date := 35, destroy_date := 65,
    branch := "b", status := "active", checksum := "Hello" }

/-- Database for the C2 witness. -/
def c2db : DBState := { commit_history := [c2row], audit_log := [] }

/-- Object store for the C2 witness. -/
def c2os : ObjStore := { heads := [], nextCommit := 7 }

/-- C2 witness: the invariants hold of the one-row state, and there
`archive` of the active row succeeds with status `archived` while `destroy`
of the same (still active) row raises HTTP 400. -/
theorem c2_witness :
    WFch c2db.commit_history ∧ FreshIds c2os c2db.commit_history ∧
    NoDestroyed c2db.commit_history ∧
    (archiveOp c2db [] ("admin") ("b") ("document/greeting") 2 10).2.2 =
      .ok { c2row with status := "archived" } ∧
    (destroyOp c2os c2db [] ("admin") ("b") ("document/greeting") 2
        10).2.2.2 =
      .raised (.httpExc 400 ("Asset document/greeting/2 is not archived")) ∧
    (∀ op : CoordOp,
      statusForward c2db.commit_history
        (applyCoordOp c2os c2db [] 10 op).2.1.commit_history) := by
  have hwf : WFch c2db.commit_history := by unfold WFch; decide
  have hfresh : FreshIds c2os c2db.commit_history := by
    unfold FreshIds; decide
  have hnd : NoDestroyed c2db.commit_history := by
    unfold NoDestroyed; decide
  have h := c2_status_monotone c2os c2db [] 10 hwf hfresh hnd
  refine ⟨hwf, hfresh, hnd, ?_, ?_, h.1⟩
  · exact (h.2.1 ("admin") ("b") ("document/greeting") ("document/greeting")
      2 c2row rfl rfl).2 rfl
  · exact ((h.2.2 ("admin") ("b") ("document/greeting") ("document/greeting")
      2 c2row rfl rfl).1 (by decide)).2

end Raptor
